import Mathlib

/-!
Verification development for the hybrid RAG index of this repository
(`backend/codeqa/rag_index.py`, `keyword_index.py`, `inverted_index.py`,
`embedding_cache.py`, `application/rag_source_service.py`).

Modelling conventions:
* Python floats are modelled as exact rationals (`ℚ`); the float literal
  `1.1` in the source is modelled as the rational `11/10`.
* Python `dict[int, float]` score accumulators are modelled as insertion
  ordered association lists `List (Nat × ℚ)`.
* `sorted(xs, key=lambda item: item[1], reverse=True)` is modelled by the
  stable descending insertion sort `sortDesc`.
* `RagConfig.__post_init__` fills every optional artifact path, so in the
  model every artifact slot of the persisted state is always present.
-/

namespace Tesr

/-! ## Stable descending sort on (key, score) pairs -/

/-- Insert `x` into a descending-sorted list, after all strictly larger
scores and before equal ones (stability of Python's `sorted`). -/
def insertDesc {α : Type} (x : α × ℚ) : List (α × ℚ) → List (α × ℚ)
  | [] => [x]
  | y :: ys => if x.2 < y.2 then y :: insertDesc x ys else x :: y :: ys

/-- Model of `sorted(items, key=lambda item: item[1], reverse=True)`. -/
def sortDesc {α : Type} : List (α × ℚ) → List (α × ℚ)
  | [] => []
  | x :: xs => insertDesc x (sortDesc xs)

/-- The list is weakly descending in its score component. -/
def SortedDesc {α : Type} (l : List (α × ℚ)) : Prop :=
  l.Pairwise (fun a b => b.2 ≤ a.2)

/-! ## Python dict model (insertion ordered association list) -/

/-- The keys of an association list, in insertion order. -/
def keys (d : List (Nat × ℚ)) : List Nat := d.map Prod.fst

/-- `scores.get(k, 0.0)`. -/
def dictGetD (d : List (Nat × ℚ)) (k : Nat) : ℚ :=
  (List.lookup k d).getD 0

/-- In-place value update: `d` with the value at key `k` replaced by `v`;
keys and positions unchanged. -/
def updVal (k : Nat) (v : ℚ) (d : List (Nat × ℚ)) : List (Nat × ℚ) :=
  d.map (fun p => if p.1 = k then (p.1, v) else p)

/-- `scores[k] = v`: update in place if present (keeping position),
append otherwise (Python dict insertion-order semantics). -/
def dictStore (d : List (Nat × ℚ)) (k : Nat) (v : ℚ) : List (Nat × ℚ) :=
  if k ∈ keys d then updVal k v d else d ++ [(k, v)]

/-! ## Reciprocal rank fusion (`RagIndex._fuse_results`) -/

/-- The fixed smoothing constant `rrf_k = 60`. -/
def rrf_k : Nat := 60

/-- One accumulation loop of `_fuse_results`:
`for rank, (doc_idx, _score) in enumerate(hits):`
`  scores[doc_idx] = scores.get(doc_idx, 0.0) + weight / (rrf_k + rank + 1)`,
with the enumeration counter `rank` made explicit. -/
def rrfLoop (weight : ℚ) : Nat → List (Nat × ℚ) → List (Nat × ℚ) → List (Nat × ℚ)
  | _, [], scores => scores
  | rank, (docIdx, _score) :: rest, scores =>
      rrfLoop weight (rank + 1) rest
        (dictStore scores docIdx
          (dictGetD scores docIdx + weight / ((rrf_k : ℚ) + (rank : ℚ) + 1)))

/-- `RagIndex._fuse_results`: accumulate weighted RRF contributions of the
vector list (weight `fusion_weight`) then the keyword list
(weight `1 - fusion_weight`) and sort by score descending. -/
def fuse_results (vector_hits keyword_hits : List (Nat × ℚ))
    (fusion_weight : ℚ) : List (Nat × ℚ) :=
  sortDesc (rrfLoop (1 - fusion_weight) 0 keyword_hits
    (rrfLoop fusion_weight 0 vector_hits []))

/-- `min(max(fusion_weight, 0.0), 1.0)` from `RagIndex.search`. -/
def clampWeight (w : ℚ) : ℚ := min (max w 0) 1

/-- Sum of the RRF contributions of key `k` over a hit list, with the
enumeration counter starting at `rank`. -/
def rrfSum (weight : ℚ) (k : Nat) : Nat → List (Nat × ℚ) → ℚ
  | _, [] => 0
  | rank, (docIdx, _) :: rest =>
      (if docIdx = k then weight / ((rrf_k : ℚ) + (rank : ℚ) + 1) else 0)
        + rrfSum weight k (rank + 1) rest

/-- The fused-score formula as worded by the claim: the sum, over the lists
containing `d`, of `weight / (rrf_k + rank + 1)`, where `rank` is the 0-based
position of `d` in that list, with weight `w` for the vector list and `1 - w`
for the keyword list. -/
def specFusedScore (vector_hits keyword_hits : List (Nat × ℚ)) (w : ℚ)
    (d : Nat) : ℚ :=
  (if d ∈ vector_hits.map Prod.fst
    then w / ((rrf_k : ℚ) + ((vector_hits.map Prod.fst).indexOf d : ℚ) + 1)
    else 0) +
  (if d ∈ keyword_hits.map Prod.fst
    then (1 - w) / ((rrf_k : ℚ) + ((keyword_hits.map Prod.fst).indexOf d : ℚ) + 1)
    else 0)

/-! ## Keyword and fuzzy hit merging (`RagIndex._merge_keyword_hits`) -/

/-- Shared shape of the two loops of `_merge_keyword_hits`:
`scores[doc_idx] = max(scores.get(doc_idx, 0.0), f(score))`, where `f` is the
identity for the primary (BM25) loop and multiplication by `11/10` (the
float literal `1.1`, the fuzzy boost) for the secondary loop. -/
def maxLoop (f : ℚ → ℚ) : List (Nat × ℚ) → List (Nat × ℚ) → List (Nat × ℚ)
  | [], scores => scores
  | (docIdx, score) :: rest, scores =>
      maxLoop f rest
        (dictStore scores docIdx (max (dictGetD scores docIdx) (f score)))

/-- `RagIndex._merge_keyword_hits`: fold the BM25 hits, then the fuzzy hits
boosted by `1.1`, taking the max per ordinal, and sort by score descending. -/
def merge_keyword_hits (primary_hits secondary_hits : List (Nat × ℚ)) :
    List (Nat × ℚ) :=
  sortDesc (maxLoop (fun s => s * (11 / 10)) secondary_hits
    (maxLoop (fun s => s) primary_hits []))

/-- The score paired with `k` in a raw hit list, 0 if absent. -/
def hitScore (hits : List (Nat × ℚ)) (k : Nat) : ℚ :=
  (List.lookup k hits).getD 0

/-! ## Keyword index (`keyword_index.py`) -/

/-- `_tokenize`: lowercase, split on whitespace, drop empty tokens. -/
def tokenize (text : String) : List String :=
  (text.toLower.split Char.isWhitespace).filter (fun token => token ≠ "")

/-- The `KeywordIndex` dataclass. -/
structure KeywordIndex where
  tokenized_docs : List (List String)
  idf : List (String × ℚ)
  doc_lengths : List Nat
  avgdl : ℚ
  k1 : ℚ := 3 / 2
  b : ℚ := 3 / 4
deriving DecidableEq

/-- The payload of `KeywordIndex.to_persisted` (the dict written by
`joblib.dump`; it always carries all five keys, so the `.get` defaults of
`from_persisted` never fire on data produced by this pipeline). -/
structure PersistedKeyword where
  idf : List (String × ℚ)
  doc_lengths : List Nat
  avgdl : ℚ
  k1 : ℚ
  b : ℚ
deriving DecidableEq

/-- Document frequency of a token: the number of documents containing it
(the `for token in set(tokens): doc_freq[token] += 1` accumulation). -/
def docFreq (tokenized : List (List String)) (t : String) : Nat :=
  (tokenized.filter (fun toks => t ∈ toks)).length

/-- `KeywordIndex.build`, parametrized by the idf formula
`idfFn num_docs df`. The source computes
`math.log((num_docs - df + 0.5) / (df + 0.5) + 1)` over floats; that
real-valued formula is `idfReal` below and is kept a parameter here so the
rest of the pipeline stays computable over `ℚ`. -/
def KeywordIndex.build (idfFn : Nat → Nat → ℚ) (texts : List String) :
    KeywordIndex :=
  let tokenized := texts.map tokenize
  let doc_lengths := tokenized.map List.length
  let num_docs := if tokenized.length = 0 then 1 else tokenized.length
  let avgdl : ℚ :=
    if doc_lengths = [] then 0 else (doc_lengths.sum : ℚ) / (num_docs : ℚ)
  let tokens := tokenized.flatten.dedup
  { tokenized_docs := tokenized
    idf := tokens.map (fun t => (t, idfFn num_docs (docFreq tokenized t)))
    doc_lengths := doc_lengths
    avgdl := avgdl }

/-- `KeywordIndex.to_persisted`. -/
def KeywordIndex.to_persisted (ki : KeywordIndex) : PersistedKeyword :=
  ⟨ki.idf, ki.doc_lengths, ki.avgdl, ki.k1, ki.b⟩

/-- `KeywordIndex.from_persisted`. -/
def KeywordIndex.from_persisted (tokenized_docs : List (List String))
    (data : PersistedKeyword) : KeywordIndex :=
  ⟨tokenized_docs, data.idf, data.doc_lengths, data.avgdl, data.k1, data.b⟩

/-- `self.idf.get(token, 0.0)`. -/
def idfGet (idf : List (String × ℚ)) (t : String) : ℚ :=
  (List.lookup t idf).getD 0

/-- Term frequency of a token within a document (the `freq` dict built by
`_score_doc`). -/
def termFreq (doc_tokens : List String) (t : String) : Nat :=
  doc_tokens.count t

/-- The document length `_score_doc` uses:
`self.doc_lengths[doc_id] if doc_id < len(self.doc_lengths) else len(doc_tokens)`. -/
def usedDocLen (ki : KeywordIndex) (doc_tokens : List String) (doc_id : Nat) :
    Nat :=
  ki.doc_lengths.getD doc_id doc_tokens.length

/-- One addend of the `_score_doc` accumulation loop:
skip query tokens absent from the document, otherwise add
`idf * (freq * (k1 + 1)) / (freq + k1 * (1 - b + b * (doc_len / (avgdl or 1))))`. -/
def bm25Term (ki : KeywordIndex) (doc_tokens : List String) (doc_len : Nat)
    (token : String) : ℚ :=
  if termFreq doc_tokens token = 0 then 0
  else
    let f : ℚ := (termFreq doc_tokens token : ℚ)
    idfGet ki.idf token * (f * (ki.k1 + 1))
      / (f + ki.k1 * (1 - ki.b + ki.b * ((doc_len : ℚ)
          / (if ki.avgdl = 0 then 1 else ki.avgdl))))

/-- `KeywordIndex._score_doc`. -/
def KeywordIndex.score_doc (ki : KeywordIndex) (doc_tokens : List String)
    (query_tokens : List String) (doc_id : Nat) : ℚ :=
  let doc_len := usedDocLen ki doc_tokens doc_id
  if doc_len = 0 then 0
  else (query_tokens.map (bm25Term ki doc_tokens doc_len)).sum

/-- `KeywordIndex.search`. -/
def KeywordIndex.search (ki : KeywordIndex) (query : String) (k : Nat) :
    List (Nat × ℚ) :=
  let query_tokens := tokenize query
  if query_tokens = [] ∨ ki.tokenized_docs = [] then []
  else
    let scores := ki.tokenized_docs.enum.map
      (fun p => (p.1, ki.score_doc p.2 query_tokens p.1))
    (sortDesc scores).take (min k (sortDesc scores).length)

/-- The idf formula of `KeywordIndex.build` over the reals:
`math.log((num_docs - df + 0.5) / (df + 0.5) + 1)`. -/
noncomputable def idfReal (num_docs df : Nat) : ℝ :=
  Real.log (((num_docs : ℝ) - (df : ℝ) + 1 / 2) / ((df : ℝ) + 1 / 2) + 1)

/-! ## Corpus checksum (`RagIndex._compute_checksum` via `hashlib.sha256`) -/

/-- Big-endian byte expansion of `v` into `n` bytes. -/
def bytesBE (n v : Nat) : List Nat :=
  (List.range n).map (fun i => (v >>> (8 * (n - 1 - i))) % 256)

/-- All SHA-256 word arithmetic is mod `2 ^ 32`. -/
def wordMod : Nat := 2 ^ 32

/-- 32-bit rotate right. -/
def rotr (n x : Nat) : Nat :=
  ((x >>> n) ||| (x <<< (32 - n))) % wordMod

/-- SHA-256 `Ch(x, y, z)`; `NOT x` over 32 bits is `x XOR (2^32 - 1)`. -/
def sha2ch (x y z : Nat) : Nat := (x &&& y) ^^^ ((x ^^^ (wordMod - 1)) &&& z)

/-- SHA-256 `Maj(x, y, z)`. -/
def sha2maj (x y z : Nat) : Nat := (x &&& y) ^^^ (x &&& z) ^^^ (y &&& z)

def bigSigma0 (x : Nat) : Nat := rotr 2 x ^^^ rotr 13 x ^^^ rotr 22 x

def bigSigma1 (x : Nat) : Nat := rotr 6 x ^^^ rotr 11 x ^^^ rotr 25 x

def smallSigma0 (x : Nat) : Nat := rotr 7 x ^^^ rotr 18 x ^^^ (x >>> 3)

def smallSigma1 (x : Nat) : Nat := rotr 17 x ^^^ rotr 19 x ^^^ (x >>> 10)

/-- The 64 SHA-256 round constants (FIPS 180-4), in decimal. -/
def sha2K : List Nat :=
  [1116352408, 1899447441, 3049323471,
   3921009573, 961987163, 1508970993,
   2453635748, 2870763221, 3624381080,
   310598401, 607225278, 1426881987,
   1925078388, 2162078206, 2614888103,
   3248222580, 3835390401, 4022224774,
   264347078, 604807628, 770255983,
   1249150122, 1555081692, 1996064986,
   2554220882, 2821834349, 2952996808,
   3210313671, 3336571891, 3584528711,
   113926993, 338241895, 666307205,
   773529912, 1294757372, 1396182291,
   1695183700, 1986661051, 2177026350,
   2456956037, 2730485921, 2820302411,
   3259730800, 3345764771, 3516065817,
   3600352804, 4094571909, 275423344,
   430227734, 506948616, 659060556,
   883997877, 958139571, 1322822218,
   1537002063, 1747873779, 1955562222,
   2024104815, 2227730452, 2361852424,
   2428436474, 2756734187, 3204031479,
   3329325298]

/-- The SHA-256 initial hash value (FIPS 180-4), in decimal. -/
def sha2H0 : List Nat :=
  [1779033703, 3144134277, 1013904242,
   2773480762, 1359893119, 2600822924,
   528734635, 1541459225]

/-- SHA-256 padding: append `0x80`, zero bytes, and the 64-bit big-endian
bit length, to a multiple of 64 bytes. -/
def padMessage (msg : List Nat) : List Nat :=
  msg ++ [0x80] ++ List.replicate ((119 - msg.length % 64) % 64) 0
    ++ bytesBE 8 (8 * msg.length)

/-- The first 16 big-endian 32-bit words of a 64-byte block. -/
def wordsOfBlock (block : List Nat) : List Nat :=
  (List.range 16).map (fun i =>
    block.getD (4 * i) 0 * 0x1000000 + block.getD (4 * i + 1) 0 * 0x10000
      + block.getD (4 * i + 2) 0 * 0x100 + block.getD (4 * i + 3) 0)

/-- One message-schedule extension step: append
`(σ1(w[i-2]) + w[i-7] + σ0(w[i-15]) + w[i-16]) mod 2^32`. -/
def scheduleStep (w : List Nat) : List Nat :=
  w ++ [(smallSigma1 (w.getD (w.length - 2) 0) + w.getD (w.length - 7) 0
    + smallSigma0 (w.getD (w.length - 15) 0) + w.getD (w.length - 16) 0) % wordMod]

/-- Iterate the schedule extension `n` times. -/
def scheduleFrom : Nat → List Nat → List Nat
  | 0, w => w
  | n + 1, w => scheduleFrom n (scheduleStep w)

/-- One SHA-256 compression round on the 8-word state. -/
def sha2round (state : List Nat) (ki wi : Nat) : List Nat :=
  match state with
  | [a, b, c, d, e, f, g, h] =>
      let t1 := (h + bigSigma1 e + sha2ch e f g + ki + wi) % wordMod
      let t2 := (bigSigma0 a + sha2maj a b c) % wordMod
      [(t1 + t2) % wordMod, a, b, c, (d + t1) % wordMod, e, f, g]
  | other => other

/-- Compress one 64-byte block into the running hash state. -/
def compressBlock (h0 : List Nat) (block : List Nat) : List Nat :=
  let w := scheduleFrom 48 (wordsOfBlock block)
  let final := (sha2K.zip w).foldl (fun st p => sha2round st p.1 p.2) h0
  List.zipWith (fun x y => (x + y) % wordMod) h0 final

/-- Split a byte list into 64-byte chunks. Structural recursion on a fuel
bounded by the list length (each step drops at least one byte), so that the
kernel can evaluate the digest. -/
def chunks64Fuel : Nat → List Nat → List (List Nat)
  | 0, _ => []
  | fuel + 1, l => if l = [] then [] else l.take 64 :: chunks64Fuel fuel (l.drop 64)

/-- Split a byte list into 64-byte chunks. -/
def chunks64 (l : List Nat) : List (List Nat) := chunks64Fuel l.length l

/-- SHA-256 digest of a byte list, as 32 bytes. -/
def sha256Bytes (msg : List Nat) : List Nat :=
  (((chunks64 (padMessage msg)).foldl compressBlock sha2H0).map (bytesBE 4)).flatten

/-- A lowercase hex digit. -/
def hexChar (n : Nat) : Char :=
  if n < 10 then Char.ofNat (48 + n) else Char.ofNat (87 + n)

/-- Lowercase hex encoding of a byte list (`hexdigest()`). -/
def toHex (bytes : List Nat) : String :=
  String.mk ((bytes.map (fun b => [hexChar (b / 16), hexChar (b % 16)])).flatten)

/-- `hashlib.sha256(...).hexdigest()` of a byte string. -/
def sha256Hex (msg : List Nat) : String := toHex (sha256Bytes msg)

/-- Python `str.encode("utf-8")` for one character. -/
def utf8Char (c : Char) : List Nat :=
  let n := c.toNat
  if n < 0x80 then [n]
  else if n < 0x800 then
    [0xC0 ||| (n >>> 6), 0x80 ||| (n &&& 0x3F)]
  else if n < 0x10000 then
    [0xE0 ||| (n >>> 12), 0x80 ||| ((n >>> 6) &&& 0x3F), 0x80 ||| (n &&& 0x3F)]
  else
    [0xF0 ||| (n >>> 18), 0x80 ||| ((n >>> 12) &&& 0x3F),
     0x80 ||| ((n >>> 6) &&& 0x3F), 0x80 ||| (n &&& 0x3F)]

/-- Python `str.encode("utf-8")`. -/
def utf8Encode (s : String) : List Nat := (s.data.map utf8Char).flatten

/-- `RagIndex._compute_checksum`: a streaming `hashlib.sha256()` whose
`update` calls accumulate the utf-8 bytes of each document in order, then
`hexdigest()`. The streaming hasher state is modelled by the byte string
accumulated so far. -/
def compute_checksum (docs : List String) : String :=
  sha256Hex (docs.foldl (fun acc doc => acc ++ utf8Encode doc) [])

/-! ## Dense vector index (faiss `IndexFlatIP`) -/

/-- A faiss `IndexFlatIP`: the dimension passed to the constructor and the
matrix of added vectors (one row per document ordinal). -/
structure DenseIndex where
  d : Nat
  vecs : List (List ℚ)
deriving DecidableEq

def innerProduct (u v : List ℚ) : ℚ :=
  ((u.zip v).map (fun p => p.1 * p.2)).sum

/-- `IndexFlatIP.search` for a single query: every stored vector scored by
inner product, ranked descending, truncated to `k`, and padded with id `-1`
entries when fewer than `k` vectors exist (the under-filled result
buffer). -/
def DenseIndex.search (idx : DenseIndex) (q : List ℚ) (k : Nat) :
    List (Int × ℚ) :=
  let scored : List (Int × ℚ) :=
    idx.vecs.enum.map (fun p => ((p.1 : Int), innerProduct q p.2))
  let ranked := (sortDesc scored).take k
  ranked ++ List.replicate (k - ranked.length) ((-1 : Int), 0)

/-! ## Query embedding cache (`embedding_cache.InMemoryEmbeddingCache`) -/

/-- Python `str.strip()`: drop whitespace from both ends (structurally
recursive so the kernel can evaluate it). -/
def pyStrip (s : String) : String :=
  String.mk (((s.data.dropWhile Char.isWhitespace).reverse.dropWhile
    Char.isWhitespace).reverse)

/-- `InMemoryEmbeddingCache`: an ordered dict of entries (front = least
recently used) and the `max_size` bound. -/
structure InMemoryEmbeddingCache where
  max_size : Nat
  entries : List (String × List ℚ)
deriving DecidableEq

/-- `InMemoryEmbeddingCache.get`: key is the stripped query; an empty key
misses; a hit is moved to the most-recently-used end. -/
def InMemoryEmbeddingCache.get (c : InMemoryEmbeddingCache) (query : String) :
    Option (List ℚ) × InMemoryEmbeddingCache :=
  let key := (pyStrip query)
  if key = "" then (none, c)
  else
    match List.lookup key c.entries with
    | none => (none, c)
    | some v =>
        (some v, ⟨c.max_size, (c.entries.eraseP (fun p => p.1 == key)) ++ [(key, v)]⟩)

/-- `InMemoryEmbeddingCache.set`: key is the stripped query; an empty key is
ignored; the entry is (re)inserted at the most-recently-used end and the
least-recently-used entry is evicted when over `max_size`. -/
def InMemoryEmbeddingCache.set (c : InMemoryEmbeddingCache) (query : String)
    (embedding : List ℚ) : InMemoryEmbeddingCache :=
  let key := (pyStrip query)
  if key = "" then c
  else
    let entries := (c.entries.eraseP (fun p => p.1 == key)) ++ [(key, embedding)]
    if c.max_size < entries.length then ⟨c.max_size, entries.drop 1⟩
    else ⟨c.max_size, entries⟩

/-! ## The hybrid index (`rag_index.RagIndex`), pure data-flow layer -/

/-- The deterministic environment of a `RagIndex` instance: `encode` models
`self._model.encode(texts, normalize_embeddings=True)` (one row per input
text); `embDim` models `get_sentence_embedding_dimension()` (`none` when the
model does not expose it); `idfFn` is the idf formula used by
`KeywordIndex.build` (see `idfReal`); `whooshSearch docs query limit` models
`InvertedIndex.search` against a whoosh directory built from `docs`. -/
structure Env where
  encode : List String → List (List ℚ)
  embDim : Option Nat
  idfFn : Nat → Nat → ℚ
  whooshSearch : List String → String → Nat → List (Nat × ℚ)

/-- The subset of `RagConfig` the pure model needs; `__post_init__` always
fills the artifact paths, so they are not part of the model. -/
structure ModelConfig where
  persist_embeddings : Bool := true
  index_version : String := "1"

/-- The mutable in-memory state of a `RagIndex` (the fields assigned by
`__init__`, `build_from_texts` and `load`). The inverted index is modelled
by the documents its whoosh directory holds. -/
structure RagState where
  index : Option DenseIndex
  docs : List String
  tokenized_docs : List (List String)
  keyword_index : Option KeywordIndex
  inverted_index : Option (List String)
  doc_embeddings : Option (List (List ℚ))
deriving DecidableEq

/-- `RagIndex.__init__` state. -/
def RagState.initial : RagState := ⟨none, [], [], none, none, none⟩

/-- The persisted artifacts at the `RagConfig` paths. `none` models a
missing or unreadable file; the whoosh directory is modelled by the
documents it was built from; `meta_file` is `(version, checksum)`. -/
structure Disk where
  index_file : Option DenseIndex
  docs_file : Option (List String)
  tokens_file : Option (List (List String))
  keyword_file : Option PersistedKeyword
  whoosh_dir : Option (List String)
  embeddings_file : Option (List (List ℚ))
  meta_file : Option (String × String)
deriving DecidableEq

/-- `RagIndex._save_index_and_docs` (every path is set, so every branch
writes; the embeddings file keeps its old content when persisting is
off). -/
def save_index_and_docs (cfg : ModelConfig) (disk : Disk) (index : DenseIndex)
    (docs : List String) (tokenized_docs : List (List String))
    (keyword_index : KeywordIndex) (embeddings : Option (List (List ℚ)))
    (checksum : String) : Disk :=
  { index_file := some index
    docs_file := some docs
    tokens_file := some tokenized_docs
    keyword_file := some keyword_index.to_persisted
    whoosh_dir := some docs
    embeddings_file :=
      if cfg.persist_embeddings ∧ embeddings.isSome then embeddings
      else disk.embeddings_file
    meta_file := some (cfg.index_version, checksum) }

/-- The errors `RagIndex` raises; `ioError` stands for an exception injected
into a fallible primitive (a model call or a disk operation). -/
inductive RagErr where
  | valueError : RagErr
  | fileNotFound : RagErr
  | runtimeNotLoaded : RagErr
  | ioError : RagErr
deriving DecidableEq

/-- `RagIndex._rebuild_index_from_docs` (pure data flow): re-embed the
loaded documents, rebuild the dense and keyword structures, persist
everything, and return the rebuilt pieces plus the embeddings assigned to
`self._doc_embeddings`. -/
def rebuild_index_from_docs (env : Env) (cfg : ModelConfig) (disk : Disk)
    (docs : List String) :
    DenseIndex × List (List String) × KeywordIndex × Disk × List (List ℚ) :=
  let embeddings := env.encode docs
  let index : DenseIndex := ⟨(embeddings.headD []).length, embeddings⟩
  let keyword_index := KeywordIndex.build env.idfFn docs
  let checksum := compute_checksum docs
  let disk2 := save_index_and_docs cfg disk index docs
    keyword_index.tokenized_docs keyword_index (some embeddings) checksum
  (index, keyword_index.tokenized_docs, keyword_index, disk2, embeddings)

/-- `RagIndex.build_from_texts` (pure data flow). -/
def build_from_texts (env : Env) (cfg : ModelConfig) (st : RagState)
    (disk : Disk) (texts : List String) : Except RagErr (RagState × Disk) :=
  if texts = [] then .error .valueError
  else
    let embeddings := env.encode texts
    let dim := (embeddings.headD []).length
    let index : DenseIndex := ⟨dim, embeddings⟩
    let keyword_index := KeywordIndex.build env.idfFn texts
    let checksum := compute_checksum texts
    let disk2 := save_index_and_docs cfg disk index texts
      keyword_index.tokenized_docs keyword_index (some embeddings) checksum
    .ok ({ index := some index
           docs := texts
           tokenized_docs := keyword_index.tokenized_docs
           keyword_index := some keyword_index
           inverted_index := disk2.whoosh_dir
           doc_embeddings := some embeddings }, disk2)

/-- The `load` tail shared by both branches (lines 255-259 of
`rag_index.py`): open the whoosh directory, or rebuild it from the loaded
documents when it is missing (`__post_init__` guarantees the directory path
is configured). -/
def loadWhoosh (disk : Disk) (docs : List String) :
    Option (List String) × Disk :=
  match disk.whoosh_dir with
  | some wdocs => (some wdocs, disk)
  | none => (some docs, { disk with whoosh_dir := some docs })

/-- `RagIndex.load`, rebuild branch: `needs_rebuild` held, so the state is
rebuilt from the loaded documents. -/
def loadRebuildBranch (env : Env) (cfg : ModelConfig) (disk : Disk)
    (docs : List String) : RagState × Disk :=
  let r := rebuild_index_from_docs env cfg disk docs
  let wd := loadWhoosh r.2.2.2.1 docs
  ({ index := some r.1
     docs := docs
     tokenized_docs := r.2.1
     keyword_index := some r.2.2.1
     inverted_index := wd.1
     doc_embeddings := some r.2.2.2.2 }, wd.2)

/-- `RagIndex.load`, reuse branch: the persisted dense index and lexical
structures are used as-is (and the embeddings file is consulted when
persisting is on). -/
def loadReuseBranch (cfg : ModelConfig) (st : RagState) (disk : Disk)
    (docs : List String) (tokenized_docs : List (List String))
    (keyword_data : PersistedKeyword) (idx : DenseIndex) : RagState × Disk :=
  let keyword_index := KeywordIndex.from_persisted tokenized_docs keyword_data
  let doc_embeddings :=
    if cfg.persist_embeddings then disk.embeddings_file else st.doc_embeddings
  let wd := loadWhoosh disk docs
  ({ index := some idx
     docs := docs
     tokenized_docs := tokenized_docs
     keyword_index := some keyword_index
     inverted_index := wd.1
     doc_embeddings := doc_embeddings }, wd.2)

/-- The `needs_rebuild` disjunction of `RagIndex.load` once the dense index
file was readable (`index is None` is handled by the caller's match):
`self._embedding_dim is not None and index.d != self._embedding_dim`,
`stored_version != self._config.index_version`,
`stored_checksum != current_checksum` (where a missing or corrupt metadata
file loads as `stored_version = stored_checksum = None`). -/
def needsRebuildBool (env : Env) (cfg : ModelConfig) (disk : Disk)
    (docs : List String) (idx : DenseIndex) : Bool :=
  (match env.embDim with
    | some dim => idx.d != dim
    | none => false)
  || (disk.meta_file.map Prod.fst != some cfg.index_version)
  || (disk.meta_file.map Prod.snd != some (compute_checksum docs))

/-- `RagIndex.load` (pure data flow): read the persisted documents, token
lists and keyword data (a missing one is a `FileNotFoundError`), then decide
`needs_rebuild`: the dense index file unreadable, or its dimension different
from the model's (when the model exposes one), or a stored version or
checksum mismatch. -/
def load (env : Env) (cfg : ModelConfig) (st : RagState) (disk : Disk) :
    Except RagErr (RagState × Disk) :=
  match disk.docs_file, disk.tokens_file, disk.keyword_file with
  | some docs, some tokenized_docs, some keyword_data =>
      match disk.index_file with
      | none => .ok (loadRebuildBranch env cfg disk docs)
      | some idx =>
          if needsRebuildBool env cfg disk docs idx then
            .ok (loadRebuildBranch env cfg disk docs)
          else .ok (loadReuseBranch cfg st disk docs tokenized_docs keyword_data idx)
  | _, _, _ => .error .fileNotFound

/-- `RagIndex._search_vectors`: consult the query-embedding cache, encode on
a miss and populate the cache, run the dense search, and drop ids `< 0`. -/
def search_vectors (env : Env) (index : DenseIndex)
    (cache : InMemoryEmbeddingCache) (query : String) (k : Nat) :
    List (Nat × ℚ) × InMemoryEmbeddingCache :=
  let g := cache.get query
  let ve : List ℚ × InMemoryEmbeddingCache :=
    match g.1 with
    | some v => (v, g.2)
    | none =>
        let v := (env.encode [query]).headD []
        (v, g.2.set query v)
  let raw := index.search ve.1 k
  (raw.filterMap (fun p => if p.1 < 0 then none else some (p.1.toNat, p.2)), ve.2)

/-- The final mapping step of `RagIndex.search`: truncate the fused list to
`k`, keep only ordinals inside the current document list
(`if 0 <= doc_idx < len(self._docs)`; the lower bound is vacuous for the
`Nat`-keyed model) and map them to `(text, score)`. -/
def mapFusedToDocs (docs : List String) (k : Nat)
    (fused : List (Nat × ℚ)) : List (String × ℚ) :=
  (fused.take (min k fused.length)).filterMap
    (fun p => if p.1 < docs.length then some (docs.getD p.1 "", p.2) else none)

/-- `RagIndex.search` (pure data flow). -/
def ragSearch (env : Env) (st : RagState) (cache : InMemoryEmbeddingCache)
    (query : String) (k : Nat) (fusion_weight : ℚ) :
    Except RagErr (List (String × ℚ) × InMemoryEmbeddingCache) :=
  match st.index, st.keyword_index, st.inverted_index with
  | some index, some keyword_index, some inv_docs =>
      if st.docs = [] ∨ st.tokenized_docs = [] then .error .runtimeNotLoaded
      else
        let sv := search_vectors env index cache query k
        let keyword_hits := keyword_index.search query k
        let inverted_hits := env.whooshSearch inv_docs query k
        let merged := merge_keyword_hits keyword_hits inverted_hits
        let w := clampWeight fusion_weight
        let fused := fuse_results sv.1 merged w
        .ok (mapFusedToDocs st.docs k fused, sv.2)
  | _, _, _ => .error .runtimeNotLoaded

/-- The four staleness conditions as the claim states them: dense index file
unreadable/corrupt, or the loaded dense index's embedding dimension differs
from the current model's (reported) dimension, or the stored metadata
version differs from the configured version, or the stored checksum differs
from a freshly computed checksum of the loaded documents. -/
def RebuildCondition (env : Env) (cfg : ModelConfig) (disk : Disk)
    (docs : List String) : Prop :=
  disk.index_file = none
  ∨ (∃ idx dim, disk.index_file = some idx ∧ env.embDim = some dim ∧ idx.d ≠ dim)
  ∨ disk.meta_file.map Prod.fst ≠ some cfg.index_version
  ∨ disk.meta_file.map Prod.snd ≠ some (compute_checksum docs)

/-! ## Generic association-list lemmas (string-keyed caches) -/

/-! ## Cache round-trip lemmas -/

/-- The query vector `_search_vectors` uses: the cached one on a hit, the
freshly encoded one on a miss. -/
def usedVector (env : Env) (cache : InMemoryEmbeddingCache) (query : String) :
    List ℚ :=
  match (cache.get query).1 with
  | some v => v
  | none => (env.encode [query]).headD []

/-! ## Durable build pipeline (`rag_source_service.RagSourceService._build`) -/

/-- Contents of a directory in the rebuild protocol. -/
inductive DirContent where
  | old : DirContent
  | tmpEmpty : DirContent
  | newIndex : DirContent
deriving DecidableEq

/-- The three directories `_build` touches for one source: the serving
directory (`base_dir`), its `.bak` backup and the `.tmp` build directory.
`none` means the directory does not exist. -/
structure SvcFS where
  target : Option DirContent
  backup : Option DirContent
  temp : Option DirContent
deriving DecidableEq

/-- The fallible steps of `_build` after the chunks are collected, in
program order. `swapRmBak`, `swapMoveTargetToBak` and `swapCommit` are the
three operations of `_atomic_swap_dir` (`shutil.rmtree(backup_dir)`,
`target_dir.replace(backup_dir)`, `os.replace(temp_dir, target_dir)`);
`postSave` covers the model save and the metadata write after the swap. -/
inductive BuildStep where
  | prepTemp
  | buildIndex
  | swapRmBak
  | swapMoveTargetToBak
  | swapCommit
  | postSave
deriving DecidableEq, Fintype

/-- The filesystem effect of one successfully executed step. The two
backup moves only run when the serving directory exists
(`if target_dir.exists()`). -/
def applyStep (fs : SvcFS) : BuildStep → SvcFS
  | .prepTemp => { fs with temp := some .tmpEmpty }
  | .buildIndex => { fs with temp := some .newIndex }
  | .swapRmBak => if fs.target.isSome then { fs with backup := none } else fs
  | .swapMoveTargetToBak =>
      if fs.target.isSome then { fs with backup := fs.target, target := none }
      else fs
  | .swapCommit => { fs with target := fs.temp, temp := none }
  | .postSave => fs

/-- The steps of `_build` in program order. -/
def buildSteps : List BuildStep :=
  [.prepTemp, .buildIndex, .swapRmBak, .swapMoveTargetToBak, .swapCommit,
   .postSave]

/-- Run the steps; a step equal to `failAt` raises before taking effect.
Returns the filesystem, whether an exception was raised, and whether
`_atomic_swap_dir` returned (only then is the `backup_dir` local of
`_build` assigned). -/
def runStepsFrom (failAt : Option BuildStep) :
    List BuildStep → SvcFS → Bool → SvcFS × Bool × Bool
  | [], fs, swapDone => (fs, false, swapDone)
  | s :: rest, fs, swapDone =>
      if failAt = some s then (fs, true, swapDone)
      else runStepsFrom failAt rest (applyStep fs s)
        (swapDone || (s == BuildStep.swapCommit))

/-- `RagSourceService._build` for an existing source: run the steps; on an
exception, the handler restores the backup into the serving directory only
when the `backup_dir` local is assigned (the swap returned) and the backup
exists; the `finally` clause removes the temp directory. -/
def runBuild (failAt : Option BuildStep) (fs0 : SvcFS) : SvcFS × Bool :=
  let r := runStepsFrom failAt buildSteps fs0 false
  let fs1 := r.1
  let raised := r.2.1
  let swapDone := r.2.2
  let fs2 :=
    if raised && swapDone && fs1.backup.isSome then
      { fs1 with target := fs1.backup, backup := none }
    else fs1
  ({ fs2 with temp := none }, raised)

/-! ## Fault-injected layer (`rag_index.py` with failing primitives) -/

/-- The fallible primitive operations of `build_from_texts`, `load` and
`search`: the model `encode` calls, the artifact writes of
`_save_index_and_docs` (in program order), the artifact reads of `load`,
and the whoosh rebuild of `load`'s `except FileNotFoundError` handler. -/
inductive IndexOp where
  | encodeDocs
  | writeIndex
  | dumpDocs
  | dumpTokens
  | dumpKeywords
  | whooshBuildSave
  | dumpEmbeddings
  | writeMeta
  | loadDocs
  | loadTokens
  | loadKeywords
  | readIndex
  | loadEmbeddings
  | whooshBuildOnLoad
  | encodeQuery
deriving DecidableEq

/-- `_save_index_and_docs` with fallible writes: a failing write raises
after the earlier writes took effect (partially updated disk), leaving the
in-memory state to the caller. -/
def saveF (cfg : ModelConfig) (faults : IndexOp → Bool) (disk : Disk)
    (index : DenseIndex) (docs : List String)
    (tokenized_docs : List (List String)) (keyword_index : KeywordIndex)
    (embeddings : Option (List (List ℚ))) (checksum : String) :
    Disk × Option RagErr :=
  if faults .writeIndex then (disk, some .ioError) else
  let d1 := { disk with index_file := some index }
  if faults .dumpDocs then (d1, some .ioError) else
  let d2 := { d1 with docs_file := some docs }
  if faults .dumpTokens then (d2, some .ioError) else
  let d3 := { d2 with tokens_file := some tokenized_docs }
  if faults .dumpKeywords then (d3, some .ioError) else
  let d4 := { d3 with keyword_file := some keyword_index.to_persisted }
  if faults .whooshBuildSave then (d4, some .ioError) else
  let d5 := { d4 with whoosh_dir := some docs }
  let pe := cfg.persist_embeddings && embeddings.isSome
  if pe && faults .dumpEmbeddings then (d5, some .ioError) else
  let d6 := if pe then { d5 with embeddings_file := embeddings } else d5
  if faults .writeMeta then (d6, some .ioError) else
  ({ d6 with meta_file := some (cfg.index_version, checksum) }, none)

/-- `build_from_texts` with fallible primitives: every fault point precedes
the in-memory assignments, which come last. -/
def buildF (env : Env) (cfg : ModelConfig) (faults : IndexOp → Bool)
    (st : RagState) (disk : Disk) (texts : List String) :
    RagState × Disk × Option RagErr :=
  if texts = [] then (st, disk, some .valueError)
  else if faults .encodeDocs then (st, disk, some .ioError)
  else
    let embeddings := env.encode texts
    let index : DenseIndex := ⟨(embeddings.headD []).length, embeddings⟩
    let keyword_index := KeywordIndex.build env.idfFn texts
    let checksum := compute_checksum texts
    let sr := saveF cfg faults disk index texts keyword_index.tokenized_docs
      keyword_index (some embeddings) checksum
    match sr.2 with
    | some e => (st, sr.1, some e)
    | none =>
        ({ index := some index
           docs := texts
           tokenized_docs := keyword_index.tokenized_docs
           keyword_index := some keyword_index
           inverted_index := sr.1.whoosh_dir
           doc_embeddings := some embeddings }, sr.1, none)

/-- The whoosh tail of `load` (lines 255-259) with a fallible
`InvertedIndex.build`: when the whoosh directory is missing and its rebuild
raises, the four main fields of `stMid` were already assigned while the
inverted index still holds its previous value. -/
def loadWhooshF (faults : IndexOp → Bool) (stMid : RagState) (disk : Disk)
    (docs : List String) : RagState × Disk × Option RagErr :=
  match disk.whoosh_dir with
  | some wdocs => ({ stMid with inverted_index := some wdocs }, disk, none)
  | none =>
      if faults .whooshBuildOnLoad then (stMid, disk, some .ioError)
      else ({ stMid with inverted_index := some docs },
        { disk with whoosh_dir := some docs }, none)

/-- The rebuild branch of `load` with fallible primitives
(`_rebuild_index_from_docs` followed by the assignments and the whoosh
tail). -/
def loadRebuildF (env : Env) (cfg : ModelConfig) (faults : IndexOp → Bool)
    (st : RagState) (disk : Disk) (docs : List String) :
    RagState × Disk × Option RagErr :=
  if faults .encodeDocs then (st, disk, some .ioError)
  else
    let embeddings := env.encode docs
    let index : DenseIndex := ⟨(embeddings.headD []).length, embeddings⟩
    let keyword_index := KeywordIndex.build env.idfFn docs
    let checksum := compute_checksum docs
    let sr := saveF cfg faults disk index docs keyword_index.tokenized_docs
      keyword_index (some embeddings) checksum
    match sr.2 with
    | some e => (st, sr.1, some e)
    | none =>
        loadWhooshF faults
          { index := some index
            docs := docs
            tokenized_docs := keyword_index.tokenized_docs
            keyword_index := some keyword_index
            inverted_index := st.inverted_index
            doc_embeddings := some embeddings } sr.1 docs

/-- `load` with fallible primitives. The three `joblib.load` calls share one
`try` whose handler raises `FileNotFoundError`; a failing or missing dense
index read is caught and treated as `index = None`; a failing embeddings
read is caught and treated as `None`. -/
def loadF (env : Env) (cfg : ModelConfig) (faults : IndexOp → Bool)
    (st : RagState) (disk : Disk) : RagState × Disk × Option RagErr :=
  match disk.docs_file, disk.tokens_file, disk.keyword_file with
  | some docs, some tokenized_docs, some keyword_data =>
      if faults .loadDocs || faults .loadTokens || faults .loadKeywords then
        (st, disk, some .fileNotFound)
      else
        let index0 : Option DenseIndex :=
          if faults .readIndex then none else disk.index_file
        match index0 with
        | none => loadRebuildF env cfg faults st disk docs
        | some idx =>
            if needsRebuildBool env cfg disk docs idx then
              loadRebuildF env cfg faults st disk docs
            else
              let keyword_index :=
                KeywordIndex.from_persisted tokenized_docs keyword_data
              let doc_embeddings :=
                if cfg.persist_embeddings then
                  (if faults .loadEmbeddings then none else disk.embeddings_file)
                else st.doc_embeddings
              loadWhooshF faults
                { index := some idx
                  docs := docs
                  tokenized_docs := tokenized_docs
                  keyword_index := some keyword_index
                  inverted_index := st.inverted_index
                  doc_embeddings := doc_embeddings } disk docs
  | _, _, _ => (st, disk, some .fileNotFound)

/-- `_search_vectors` with a fallible query `encode` (reached only on a
cache miss). -/
def search_vectorsF (env : Env) (faults : IndexOp → Bool) (index : DenseIndex)
    (cache : InMemoryEmbeddingCache) (query : String) (k : Nat) :
    (List (Nat × ℚ) × InMemoryEmbeddingCache) × Option RagErr :=
  let g := cache.get query
  match g.1 with
  | some v =>
      (((index.search v k).filterMap
          (fun p => if p.1 < 0 then none else some (p.1.toNat, p.2)), g.2), none)
  | none =>
      if faults .encodeQuery then (([], g.2), some .ioError)
      else
        let v := (env.encode [query]).headD []
        (((index.search v k).filterMap
            (fun p => if p.1 < 0 then none else some (p.1.toNat, p.2)),
          g.2.set query v), none)

/-- `search` with a fallible query embedding: a sub-engine failure fails the
whole query, with no retry inside `search`. -/
def ragSearchF (env : Env) (faults : IndexOp → Bool) (st : RagState)
    (cache : InMemoryEmbeddingCache) (query : String) (k : Nat)
    (fusion_weight : ℚ) :
    (List (String × ℚ) × InMemoryEmbeddingCache) × Option RagErr :=
  match st.index, st.keyword_index, st.inverted_index with
  | some index, some keyword_index, some inv_docs =>
      if st.docs = [] ∨ st.tokenized_docs = [] then
        (([], cache), some .runtimeNotLoaded)
      else
        let sv := search_vectorsF env faults index cache query k
        match sv.2 with
        | some e => (([], sv.1.2), some e)
        | none =>
            let keyword_hits := keyword_index.search query k
            let inverted_hits := env.whooshSearch inv_docs query k
            let merged := merge_keyword_hits keyword_hits inverted_hits
            let w := clampWeight fusion_weight
            let fused := fuse_results sv.1.1 merged w
            ((mapFusedToDocs st.docs k fused, sv.1.2), none)
  | _, _, _ => (([], cache), some .runtimeNotLoaded)

/-- `RagIndex._load_model_with_fallback`: try to construct the primary
model; on failure re-raise when the fallback name equals the primary name,
otherwise construct the fallback. -/
def load_model_with_fallback (primary fallback : String)
    (construct : String → Except RagErr Env) : Except RagErr Env :=
  match construct primary with
  | .ok m => .ok m
  | .error e => if fallback = primary then .error e else construct fallback

/-! ## Theorems -/

theorem perm_insertDesc {α : Type} (x : α × ℚ) (l : List (α × ℚ)) :
    List.Perm (insertDesc x l) (x :: l) := by
  induction l with
  | nil => simp [insertDesc]
  | cons y ys ih =>
      by_cases h : x.2 < y.2
      · simp only [insertDesc, if_pos h]
        exact (List.Perm.cons y ih).trans (List.Perm.swap x y ys)
      · simp [insertDesc, if_neg h]

theorem perm_sortDesc {α : Type} (l : List (α × ℚ)) : List.Perm (sortDesc l) l := by
  induction l with
  | nil => simp [sortDesc]
  | cons x xs ih =>
      exact (perm_insertDesc x (sortDesc xs)).trans (List.Perm.cons x ih)

theorem sortedDesc_insertDesc {α : Type} (x : α × ℚ) (l : List (α × ℚ))
    (h : SortedDesc l) : SortedDesc (insertDesc x l) := by
  induction l with
  | nil => simp [insertDesc, SortedDesc]
  | cons y ys ih =>
      rcases List.pairwise_cons.mp h with ⟨hy, hys⟩
      by_cases hlt : x.2 < y.2
      · simp only [insertDesc, if_pos hlt]
        refine List.pairwise_cons.mpr ⟨?_, ih hys⟩
        intro z hz
        have hz' : z ∈ x :: ys := (perm_insertDesc x ys).mem_iff.mp hz
        rcases List.mem_cons.mp hz' with hzx | hzy
        · exact hzx ▸ le_of_lt hlt
        · exact hy z hzy
      · simp only [insertDesc, if_neg hlt]
        refine List.pairwise_cons.mpr ⟨?_, h⟩
        intro z hz
        rcases List.mem_cons.mp hz with hzy | hzys
        · exact hzy ▸ le_of_not_lt hlt
        · exact le_trans (hy z hzys) (le_of_not_lt hlt)

theorem sortedDesc_sortDesc {α : Type} (l : List (α × ℚ)) :
    SortedDesc (sortDesc l) := by
  induction l with
  | nil => simp [sortDesc, SortedDesc]
  | cons x xs ih => exact sortedDesc_insertDesc x (sortDesc xs) ih

theorem keys_cons (a : Nat) (b : ℚ) (d : List (Nat × ℚ)) :
    keys ((a, b) :: d) = a :: keys d := rfl

theorem lookup_cons_self (a : Nat) (b : ℚ) (d : List (Nat × ℚ)) :
    List.lookup a ((a, b) :: d) = some b := by simp [List.lookup]

theorem lookup_cons_ne (k a : Nat) (b : ℚ) (d : List (Nat × ℚ)) (h : k ≠ a) :
    List.lookup k ((a, b) :: d) = List.lookup k d := by
  simp [List.lookup, show (k == a) = false from beq_eq_false_iff_ne.mpr h]

theorem updVal_cons_hit (k a : Nat) (b v : ℚ) (d : List (Nat × ℚ)) (h : a = k) :
    updVal k v ((a, b) :: d) = (a, v) :: updVal k v d := by
  simp [updVal, h]

theorem updVal_cons_miss (k a : Nat) (b v : ℚ) (d : List (Nat × ℚ)) (h : a ≠ k) :
    updVal k v ((a, b) :: d) = (a, b) :: updVal k v d := by
  simp [updVal, h]

theorem lookup_eq_none_iff (d : List (Nat × ℚ)) (k : Nat) :
    List.lookup k d = none ↔ k ∉ keys d := by
  induction d with
  | nil => simp [keys]
  | cons p rest ih =>
      obtain ⟨a, b⟩ := p
      rw [keys_cons]
      by_cases h : k = a
      · subst h
        simp [lookup_cons_self]
      · rw [lookup_cons_ne k a b rest h, List.mem_cons]
        simp [ih, h]

theorem lookup_updVal_other (d : List (Nat × ℚ)) (k k' : Nat) (v : ℚ)
    (hne : k' ≠ k) : List.lookup k' (updVal k v d) = List.lookup k' d := by
  induction d with
  | nil => rfl
  | cons p rest ih =>
      obtain ⟨a, b⟩ := p
      by_cases ha : a = k
      · rw [updVal_cons_hit k a b v rest ha,
          lookup_cons_ne k' a v (updVal k v rest) (ha ▸ hne),
          lookup_cons_ne k' a b rest (ha ▸ hne)]
        exact ih
      · rw [updVal_cons_miss k a b v rest ha]
        by_cases hk : k' = a
        · subst hk
          rw [lookup_cons_self, lookup_cons_self]
        · rw [lookup_cons_ne k' a b (updVal k v rest) hk,
            lookup_cons_ne k' a b rest hk]
          exact ih

theorem lookup_updVal_self (d : List (Nat × ℚ)) (k : Nat) (v : ℚ)
    (h : k ∈ keys d) : List.lookup k (updVal k v d) = some v := by
  induction d with
  | nil => simp [keys] at h
  | cons p rest ih =>
      obtain ⟨a, b⟩ := p
      by_cases ha : a = k
      · subst ha
        rw [updVal_cons_hit a a b v rest rfl, lookup_cons_self]
      · rw [updVal_cons_miss k a b v rest ha,
          lookup_cons_ne k a b (updVal k v rest) (fun he => ha he.symm)]
        refine ih ?_
        rw [keys_cons] at h
        rcases List.mem_cons.mp h with h1 | h2
        · exact absurd h1.symm ha
        · exact h2

theorem lookup_append_var (d l : List (Nat × ℚ)) (k : Nat) :
    List.lookup k (d ++ l) =
      match List.lookup k d with
      | some v => some v
      | none => List.lookup k l := by
  induction d with
  | nil => simp
  | cons p rest ih =>
      obtain ⟨a, b⟩ := p
      by_cases hk : k = a
      · subst hk
        rw [List.cons_append, lookup_cons_self, lookup_cons_self]
      · rw [List.cons_append, lookup_cons_ne k a b (rest ++ l) hk,
          lookup_cons_ne k a b rest hk]
        exact ih

theorem lookup_dictStore_self (d : List (Nat × ℚ)) (k : Nat) (v : ℚ) :
    List.lookup k (dictStore d k v) = some v := by
  unfold dictStore
  by_cases h : k ∈ keys d
  · rw [if_pos h]
    exact lookup_updVal_self d k v h
  · rw [if_neg h, lookup_append_var]
    rw [(lookup_eq_none_iff d k).mpr h]
    simp [lookup_cons_self]

theorem lookup_dictStore_other (d : List (Nat × ℚ)) (k k' : Nat) (v : ℚ)
    (hne : k' ≠ k) : List.lookup k' (dictStore d k v) = List.lookup k' d := by
  unfold dictStore
  by_cases h : k ∈ keys d
  · rw [if_pos h]
    exact lookup_updVal_other d k k' v hne
  · rw [if_neg h, lookup_append_var]
    cases hv : List.lookup k' d with
    | some w => simp
    | none => simp [show (k' == k) = false from beq_eq_false_iff_ne.mpr hne, List.lookup]

theorem dictGetD_dictStore_self (d : List (Nat × ℚ)) (k : Nat) (v : ℚ) :
    dictGetD (dictStore d k v) k = v := by
  simp [dictGetD, lookup_dictStore_self]

theorem dictGetD_dictStore_other (d : List (Nat × ℚ)) (k k' : Nat) (v : ℚ)
    (hne : k' ≠ k) : dictGetD (dictStore d k v) k' = dictGetD d k' := by
  simp [dictGetD, lookup_dictStore_other d k k' v hne]

theorem keys_dictStore (d : List (Nat × ℚ)) (k : Nat) (v : ℚ) :
    keys (dictStore d k v) =
      if k ∈ keys d then keys d else keys d ++ [k] := by
  unfold dictStore
  by_cases h : k ∈ keys d
  · rw [if_pos h, if_pos h]
    unfold keys updVal
    rw [List.map_map]
    apply List.map_congr_left
    intro p _
    by_cases hp : p.1 = k <;> simp [hp]
  · rw [if_neg h, if_neg h]
    unfold keys
    simp

theorem mem_keys_dictStore (d : List (Nat × ℚ)) (k k' : Nat) (v : ℚ) :
    k' ∈ keys (dictStore d k v) ↔ k' ∈ keys d ∨ k' = k := by
  rw [keys_dictStore]
  by_cases h : k ∈ keys d
  · rw [if_pos h]
    constructor
    · exact fun hm => Or.inl hm
    · rintro (hm | he)
      · exact hm
      · exact he ▸ h
  · rw [if_neg h]
    simp

theorem keys_dictStore_nodup (d : List (Nat × ℚ)) (k : Nat) (v : ℚ)
    (hnd : (keys d).Nodup) : (keys (dictStore d k v)).Nodup := by
  rw [keys_dictStore]
  by_cases h : k ∈ keys d
  · rwa [if_pos h]
  · rw [if_neg h]
    rw [List.nodup_append]
    exact ⟨hnd, List.nodup_singleton k,
      fun a ha hb => h (by rwa [List.mem_singleton.mp hb] at ha)⟩

theorem lookup_mem (d : List (Nat × ℚ)) (k : Nat) (v : ℚ)
    (h : List.lookup k d = some v) : (k, v) ∈ d := by
  induction d with
  | nil => simp [List.lookup] at h
  | cons p rest ih =>
      obtain ⟨a, b⟩ := p
      by_cases hk : k = a
      · subst hk
        rw [lookup_cons_self] at h
        exact List.mem_cons.mpr (Or.inl (by simpa using h.symm))
      · rw [lookup_cons_ne k a b rest hk] at h
        exact List.mem_cons.mpr (Or.inr (ih h))

theorem mem_lookup (d : List (Nat × ℚ)) (k : Nat) (v : ℚ)
    (hnd : (keys d).Nodup) (h : (k, v) ∈ d) : List.lookup k d = some v := by
  induction d with
  | nil => simp at h
  | cons p rest ih =>
      obtain ⟨a, b⟩ := p
      rw [keys_cons] at hnd
      rcases List.mem_cons.mp h with hp | hrest
      · have he1 : k = a := congrArg Prod.fst hp
        have he2 : v = b := congrArg Prod.snd hp
        subst he1
        subst he2
        exact lookup_cons_self k v rest
      · have hk : k ≠ a := by
          intro he
          subst he
          exact (List.nodup_cons.mp hnd).1
            (List.mem_map.mpr ⟨(k, v), hrest, rfl⟩)
        rw [lookup_cons_ne k a b rest hk]
        exact ih (List.nodup_cons.mp hnd).2 hrest

/-- A permutation of an association list with distinct keys has the same
lookups. -/
theorem lookup_of_perm (d dp : List (Nat × ℚ)) (k : Nat)
    (hnd : (keys d).Nodup) (hp : List.Perm d dp) :
    List.lookup k dp = List.lookup k d := by
  cases hv : List.lookup k d with
  | none =>
      have hk : k ∉ keys d := (lookup_eq_none_iff d k).mp hv
      refine (lookup_eq_none_iff dp k).mpr ?_
      intro hmem
      exact hk (((hp.map Prod.fst).mem_iff).mpr hmem)
  | some v =>
      have hmem : (k, v) ∈ d := lookup_mem d k v hv
      have hnd2 : (keys dp).Nodup := (hp.map Prod.fst).nodup_iff.mp hnd
      exact mem_lookup dp k v hnd2 (hp.mem_iff.mp hmem)

theorem dictGetD_of_perm (d dp : List (Nat × ℚ)) (k : Nat)
    (hnd : (keys d).Nodup) (hp : List.Perm d dp) :
    dictGetD dp k = dictGetD d k := by
  unfold dictGetD
  rw [lookup_of_perm d dp k hnd hp]

theorem rrfLoop_getD (weight : ℚ) (k : Nat) :
    ∀ (hits : List (Nat × ℚ)) (rank : Nat) (scores : List (Nat × ℚ)),
      dictGetD (rrfLoop weight rank hits scores) k
        = dictGetD scores k + rrfSum weight k rank hits := by
  intro hits
  induction hits with
  | nil => intro rank scores; simp [rrfLoop, rrfSum]
  | cons p rest ih =>
      intro rank scores
      obtain ⟨docIdx, s⟩ := p
      show dictGetD (rrfLoop weight (rank + 1) rest _) k = _
      rw [ih (rank + 1)]
      by_cases hd : docIdx = k
      · subst hd
        rw [dictGetD_dictStore_self]
        show _ = dictGetD scores docIdx + ((if docIdx = docIdx then _ else 0) + _)
        rw [if_pos rfl]
        ring
      · rw [dictGetD_dictStore_other _ _ _ _ (fun he => hd he.symm)]
        show _ = dictGetD scores k + ((if docIdx = k then _ else 0) + _)
        rw [if_neg hd]
        ring

theorem rrfLoop_mem_keys (weight : ℚ) (k : Nat) :
    ∀ (hits : List (Nat × ℚ)) (rank : Nat) (scores : List (Nat × ℚ)),
      k ∈ keys (rrfLoop weight rank hits scores)
        ↔ k ∈ keys scores ∨ k ∈ hits.map Prod.fst := by
  intro hits
  induction hits with
  | nil => intro rank scores; simp [rrfLoop]
  | cons p rest ih =>
      intro rank scores
      obtain ⟨docIdx, s⟩ := p
      show k ∈ keys (rrfLoop weight (rank + 1) rest _) ↔ _
      rw [ih (rank + 1), mem_keys_dictStore]
      simp only [List.map_cons, List.mem_cons]
      tauto

theorem rrfLoop_nodup (weight : ℚ) :
    ∀ (hits : List (Nat × ℚ)) (rank : Nat) (scores : List (Nat × ℚ)),
      (keys scores).Nodup → (keys (rrfLoop weight rank hits scores)).Nodup := by
  intro hits
  induction hits with
  | nil => intro rank scores h; simpa [rrfLoop] using h
  | cons p rest ih =>
      intro rank scores h
      obtain ⟨docIdx, s⟩ := p
      exact ih (rank + 1) _ (keys_dictStore_nodup _ _ _ h)

theorem rrfSum_of_not_mem (weight : ℚ) (k : Nat) :
    ∀ (hits : List (Nat × ℚ)) (rank : Nat), k ∉ hits.map Prod.fst →
      rrfSum weight k rank hits = 0 := by
  intro hits
  induction hits with
  | nil => intro rank _; rfl
  | cons p rest ih =>
      intro rank h
      obtain ⟨docIdx, s⟩ := p
      simp only [List.map_cons, List.mem_cons] at h
      push_neg at h
      show (if docIdx = k then _ else 0) + rrfSum weight k (rank + 1) rest = 0
      rw [if_neg (fun he => h.1 he.symm), ih (rank + 1) h.2]
      ring

theorem rrfSum_eq_single (weight : ℚ) (k : Nat) :
    ∀ (hits : List (Nat × ℚ)) (rank : Nat), (hits.map Prod.fst).Nodup →
      rrfSum weight k rank hits
        = if k ∈ hits.map Prod.fst
            then weight
              / ((rrf_k : ℚ) + (rank : ℚ) + ((hits.map Prod.fst).indexOf k : ℚ) + 1)
            else 0 := by
  intro hits
  induction hits with
  | nil => intro rank _; simp [rrfSum]
  | cons p rest ih =>
      intro rank hnd
      obtain ⟨docIdx, s⟩ := p
      simp only [List.map_cons] at hnd ⊢
      rcases List.nodup_cons.mp hnd with ⟨hnotin, hnd2⟩
      by_cases hd : docIdx = k
      · subst hd
        show (if docIdx = docIdx then _ else 0) + rrfSum weight docIdx (rank + 1) rest = _
        rw [if_pos rfl, rrfSum_of_not_mem weight docIdx rest (rank + 1) hnotin]
        rw [if_pos (List.mem_cons.mpr (Or.inl rfl))]
        rw [List.indexOf_cons_self]
        push_cast
        ring
      · show (if docIdx = k then _ else 0) + rrfSum weight k (rank + 1) rest = _
        rw [if_neg hd, ih (rank + 1) hnd2]
        by_cases hmem : k ∈ rest.map Prod.fst
        · rw [if_pos hmem, if_pos (List.mem_cons.mpr (Or.inr hmem))]
          rw [List.indexOf_cons_ne _ (fun he => hd he)]
          push_cast
          ring
        · rw [if_neg hmem, if_neg ?hne]
          · ring
          case hne =>
            intro hc
            rcases List.mem_cons.mp hc with h1 | h2
            · exact hd h1.symm
            · exact hmem h2

/-- C1: for ranked hit lists (distinct ordinals per list) and any fusion
weight, clamped before fusing, the fused score of each document ordinal `d`
equals the sum over the lists containing `d` of `weight / (60 + rank + 1)`
(`weight = w` for the vector list, `1 - w` for the keyword list, `rank` the
0-based position of `d` in that list), and the fused list is sorted by this
score descending. -/
theorem claim_C1_weighted_rrf_fusion (vector_hits keyword_hits : List (Nat × ℚ))
    (w : ℚ) (d : Nat)
    (hv : (vector_hits.map Prod.fst).Nodup)
    (hk : (keyword_hits.map Prod.fst).Nodup) :
    dictGetD (fuse_results vector_hits keyword_hits (clampWeight w)) d
      = specFusedScore vector_hits keyword_hits (clampWeight w) d
    ∧ SortedDesc (fuse_results vector_hits keyword_hits (clampWeight w)) := by
  constructor
  · have hnd : (keys (rrfLoop (1 - clampWeight w) 0 keyword_hits
        (rrfLoop (clampWeight w) 0 vector_hits []))).Nodup :=
      rrfLoop_nodup _ _ _ _ (rrfLoop_nodup _ _ _ _ (by simp [keys]))
    have hperm := (perm_sortDesc (rrfLoop (1 - clampWeight w) 0 keyword_hits
      (rrfLoop (clampWeight w) 0 vector_hits []))).symm
    unfold fuse_results
    rw [dictGetD_of_perm _ _ d hnd hperm]
    rw [rrfLoop_getD, rrfLoop_getD]
    have hempty : dictGetD ([] : List (Nat × ℚ)) d = 0 := rfl
    rw [hempty]
    rw [rrfSum_eq_single _ _ vector_hits 0 hv,
      rrfSum_eq_single _ _ keyword_hits 0 hk]
    unfold specFusedScore
    by_cases h1 : d ∈ vector_hits.map Prod.fst <;>
      by_cases h2 : d ∈ keyword_hits.map Prod.fst <;>
        simp only [if_pos, if_neg, h1, h2, if_true, if_false, Nat.cast_zero] <;>
          ring
  · exact sortedDesc_sortDesc _

/-- Witness for C1: with both lists ranking document 0 first and
`w = 0.5`, the fused score of document 0 is exactly
`0.5/61 + 0.5/61 = 1/61`. -/
theorem claim_C1_weighted_rrf_fusion_witness :
    (([((0 : Nat), (1 : ℚ))].map Prod.fst).Nodup
      ∧ ([((0 : Nat), (2 : ℚ))].map Prod.fst).Nodup)
    ∧ dictGetD (fuse_results [((0 : Nat), (1 : ℚ))] [((0 : Nat), (2 : ℚ))]
        (clampWeight (1 / 2))) 0 = 1 / 61 := by
  have h := claim_C1_weighted_rrf_fusion [((0 : Nat), (1 : ℚ))]
    [((0 : Nat), (2 : ℚ))] (1 / 2) 0 (by decide) (by decide)
  refine ⟨⟨by decide, by decide⟩, ?_⟩
  rw [h.1]
  norm_num [specFusedScore, clampWeight, rrf_k]

theorem maxLoop_getD_not_mem (f : ℚ → ℚ) (k : Nat) :
    ∀ (hits : List (Nat × ℚ)) (scores : List (Nat × ℚ)),
      k ∉ hits.map Prod.fst →
      dictGetD (maxLoop f hits scores) k = dictGetD scores k := by
  intro hits
  induction hits with
  | nil => intro scores _; rfl
  | cons p rest ih =>
      intro scores h
      obtain ⟨docIdx, s⟩ := p
      simp only [List.map_cons, List.mem_cons] at h
      push_neg at h
      show dictGetD (maxLoop f rest _) k = _
      rw [ih _ h.2, dictGetD_dictStore_other _ _ _ _ h.1]

theorem maxLoop_getD (f : ℚ → ℚ) (k : Nat) :
    ∀ (hits : List (Nat × ℚ)) (scores : List (Nat × ℚ)),
      (hits.map Prod.fst).Nodup →
      dictGetD (maxLoop f hits scores) k
        = if k ∈ hits.map Prod.fst
            then max (dictGetD scores k) (f (hitScore hits k))
            else dictGetD scores k := by
  intro hits
  induction hits with
  | nil => intro scores _; simp [maxLoop]
  | cons p rest ih =>
      intro scores hnd
      obtain ⟨docIdx, s⟩ := p
      simp only [List.map_cons] at hnd ⊢
      rcases List.nodup_cons.mp hnd with ⟨hnotin, hnd2⟩
      by_cases hd : docIdx = k
      · subst hd
        show dictGetD (maxLoop f rest _) docIdx = _
        rw [maxLoop_getD_not_mem f docIdx rest _ hnotin,
          dictGetD_dictStore_self, if_pos (List.mem_cons.mpr (Or.inl rfl))]
        unfold hitScore
        rw [lookup_cons_self]
        rfl
      · show dictGetD (maxLoop f rest _) k = _
        rw [ih _ hnd2, dictGetD_dictStore_other _ _ _ _ (fun he => hd he.symm)]
        unfold hitScore
        rw [lookup_cons_ne k docIdx s rest (fun he => hd he.symm)]
        by_cases hmem : k ∈ rest.map Prod.fst
        · rw [if_pos hmem, if_pos (List.mem_cons.mpr (Or.inr hmem))]
        · rw [if_neg hmem, if_neg ?hne]
          case hne =>
            intro hc
            rcases List.mem_cons.mp hc with h1 | h2
            · exact hd h1.symm
            · exact hmem h2

theorem maxLoop_nodup (f : ℚ → ℚ) :
    ∀ (hits : List (Nat × ℚ)) (scores : List (Nat × ℚ)),
      (keys scores).Nodup → (keys (maxLoop f hits scores)).Nodup := by
  intro hits
  induction hits with
  | nil => intro scores h; simpa [maxLoop] using h
  | cons p rest ih =>
      intro scores h
      obtain ⟨docIdx, s⟩ := p
      exact ih _ (keys_dictStore_nodup _ _ _ h)

theorem hitScore_nonneg (hits : List (Nat × ℚ)) (k : Nat)
    (h : ∀ p ∈ hits, 0 ≤ p.2) : 0 ≤ hitScore hits k := by
  unfold hitScore
  cases hv : List.lookup k hits with
  | none => simp
  | some v =>
      have := h (k, v) (lookup_mem hits k v hv)
      simpa using this

/-- C5: merging the BM25 hit list with the fuzzy hit list gives each
document ordinal the maximum (not the sum) of its BM25 score and 1.1 times
its fuzzy score, a missing entry counting as 0, and the merged list is
sorted by that combined score descending. -/
theorem claim_C5_keyword_fuzzy_merge (primary_hits secondary_hits : List (Nat × ℚ))
    (d : Nat)
    (hp : (primary_hits.map Prod.fst).Nodup)
    (hs : (secondary_hits.map Prod.fst).Nodup)
    (hpn : ∀ p ∈ primary_hits, 0 ≤ p.2)
    (hsn : ∀ p ∈ secondary_hits, 0 ≤ p.2) :
    dictGetD (merge_keyword_hits primary_hits secondary_hits) d
      = max (hitScore primary_hits d) ((11 / 10) * hitScore secondary_hits d)
    ∧ SortedDesc (merge_keyword_hits primary_hits secondary_hits) := by
  constructor
  · have hnd : (keys (maxLoop (fun s => s * (11 / 10)) secondary_hits
        (maxLoop (fun s => s) primary_hits []))).Nodup :=
      maxLoop_nodup _ _ _ (maxLoop_nodup _ _ _ (by simp [keys]))
    have hperm := (perm_sortDesc (maxLoop (fun s => s * (11 / 10)) secondary_hits
      (maxLoop (fun s => s) primary_hits []))).symm
    unfold merge_keyword_hits
    rw [dictGetD_of_perm _ _ d hnd hperm]
    rw [maxLoop_getD _ _ _ _ hs, maxLoop_getD _ _ _ _ hp]
    have hempty : dictGetD ([] : List (Nat × ℚ)) d = 0 := rfl
    rw [hempty]
    have hP : 0 ≤ hitScore primary_hits d := hitScore_nonneg _ _ hpn
    have hS : 0 ≤ hitScore secondary_hits d := hitScore_nonneg _ _ hsn
    by_cases h1 : d ∈ primary_hits.map Prod.fst <;>
      by_cases h2 : d ∈ secondary_hits.map Prod.fst
    · rw [if_pos h1, if_pos h2, max_eq_right hP, mul_comm]
    · rw [if_pos h1, if_neg h2, max_eq_right hP]
      have : hitScore secondary_hits d = 0 := by
        unfold hitScore
        rw [(lookup_eq_none_iff secondary_hits d).mpr (by simpa [keys] using h2)]
        rfl
      rw [this, mul_zero, max_eq_left hP]
    · rw [if_neg h1, if_pos h2]
      have : hitScore primary_hits d = 0 := by
        unfold hitScore
        rw [(lookup_eq_none_iff primary_hits d).mpr (by simpa [keys] using h1)]
        rfl
      rw [this, mul_comm]
    · rw [if_neg h1, if_neg h2]
      have hP0 : hitScore primary_hits d = 0 := by
        unfold hitScore
        rw [(lookup_eq_none_iff primary_hits d).mpr (by simpa [keys] using h1)]
        rfl
      have hS0 : hitScore secondary_hits d = 0 := by
        unfold hitScore
        rw [(lookup_eq_none_iff secondary_hits d).mpr (by simpa [keys] using h2)]
        rfl
      rw [hP0, hS0, mul_zero, max_self]
  · exact sortedDesc_sortDesc _

/-- Witness for C5 at concrete hit lists: BM25 gives doc 0 score 2, fuzzy
gives doc 0 score 3, so the merged score is `max 2 (1.1 * 3) = 33/10`. -/
theorem claim_C5_keyword_fuzzy_merge_witness :
    dictGetD (merge_keyword_hits [((0 : Nat), (2 : ℚ))] [((0 : Nat), (3 : ℚ))]) 0
      = 33 / 10 := by
  have h := claim_C5_keyword_fuzzy_merge [((0 : Nat), (2 : ℚ))]
    [((0 : Nat), (3 : ℚ))] 0 (by decide) (by decide)
    (by intro p hp; simp at hp; rw [hp]; norm_num)
    (by intro p hp; simp at hp; rw [hp]; norm_num)
  rw [h.1]
  norm_num [hitScore, List.lookup]

theorem bm25Term_nonneg (ki : KeywordIndex) (doc_tokens : List String)
    (doc_len : Nat) (token : String)
    (hk1 : 0 ≤ ki.k1) (hb0 : 0 ≤ ki.b) (hb1 : ki.b ≤ 1) (havg : 0 ≤ ki.avgdl)
    (hidf : 0 ≤ idfGet ki.idf token) :
    0 ≤ bm25Term ki doc_tokens doc_len token := by
  unfold bm25Term
  by_cases hf : termFreq doc_tokens token = 0
  · rw [if_pos hf]
  · rw [if_neg hf]
    have hfq : (1 : ℚ) ≤ (termFreq doc_tokens token : ℚ) := by
      exact_mod_cast Nat.one_le_iff_ne_zero.mpr hf
    have havg1 : (0 : ℚ) < (if ki.avgdl = 0 then 1 else ki.avgdl) := by
      by_cases h0 : ki.avgdl = 0
      · rw [if_pos h0]; norm_num
      · rw [if_neg h0]; exact lt_of_le_of_ne havg (fun he => h0 he.symm)
    have hB : 0 ≤ ki.k1 * (1 - ki.b + ki.b * ((doc_len : ℚ)
        / (if ki.avgdl = 0 then 1 else ki.avgdl))) := by
      apply mul_nonneg hk1
      have h1 : 0 ≤ 1 - ki.b := by linarith
      have h2 : 0 ≤ ki.b * ((doc_len : ℚ)
          / (if ki.avgdl = 0 then 1 else ki.avgdl)) :=
        mul_nonneg hb0 (div_nonneg (Nat.cast_nonneg _) (le_of_lt havg1))
      linarith
    apply div_nonneg
    · apply mul_nonneg hidf
      apply mul_nonneg (by linarith)
      linarith
    · linarith

theorem bm25Term_mono (ki : KeywordIndex) (d1 d2 : List String)
    (doc_len : Nat) (token : String)
    (hk1 : 0 ≤ ki.k1) (hb0 : 0 ≤ ki.b) (hb1 : ki.b ≤ 1) (havg : 0 ≤ ki.avgdl)
    (hidf : 0 ≤ idfGet ki.idf token)
    (hfreq : termFreq d1 token ≤ termFreq d2 token) :
    bm25Term ki d1 doc_len token ≤ bm25Term ki d2 doc_len token := by
  by_cases hf1 : termFreq d1 token = 0
  · have h0 : bm25Term ki d1 doc_len token = 0 := by
      unfold bm25Term; rw [if_pos hf1]
    rw [h0]
    exact bm25Term_nonneg ki d2 doc_len token hk1 hb0 hb1 havg hidf
  · have hf2 : termFreq d2 token ≠ 0 := by
      intro hc
      exact hf1 (Nat.le_zero.mp (hc ▸ hfreq))
    unfold bm25Term
    rw [if_neg hf1, if_neg hf2]
    have havg1 : (0 : ℚ) < (if ki.avgdl = 0 then 1 else ki.avgdl) := by
      by_cases h0 : ki.avgdl = 0
      · rw [if_pos h0]; norm_num
      · rw [if_neg h0]; exact lt_of_le_of_ne havg (fun he => h0 he.symm)
    set B : ℚ := ki.k1 * (1 - ki.b + ki.b * ((doc_len : ℚ)
        / (if ki.avgdl = 0 then 1 else ki.avgdl))) with hBdef
    have hB : 0 ≤ B := by
      apply mul_nonneg hk1
      have h2 : 0 ≤ ki.b * ((doc_len : ℚ)
          / (if ki.avgdl = 0 then 1 else ki.avgdl)) :=
        mul_nonneg hb0 (div_nonneg (Nat.cast_nonneg _) (le_of_lt havg1))
      linarith
    set f1 : ℚ := (termFreq d1 token : ℚ) with hf1def
    set f2 : ℚ := (termFreq d2 token : ℚ) with hf2def
    have hf1pos : (0 : ℚ) < f1 := by
      rw [hf1def]; exact_mod_cast Nat.pos_of_ne_zero hf1
    have hf2pos : (0 : ℚ) < f2 := by
      rw [hf2def]; exact_mod_cast Nat.pos_of_ne_zero hf2
    have hle : f1 ≤ f2 := by
      rw [hf1def, hf2def]; exact_mod_cast hfreq
    rw [div_le_div_iff₀ (by linarith) (by linarith)]
    have key : f1 * (ki.k1 + 1) * (f2 + B) ≤ f2 * (ki.k1 + 1) * (f1 + B) →
        idfGet ki.idf token * (f1 * (ki.k1 + 1)) * (f2 + B)
          ≤ idfGet ki.idf token * (f2 * (ki.k1 + 1)) * (f1 + B) := by
      intro h
      calc idfGet ki.idf token * (f1 * (ki.k1 + 1)) * (f2 + B)
          = idfGet ki.idf token * (f1 * (ki.k1 + 1) * (f2 + B)) := by ring
        _ ≤ idfGet ki.idf token * (f2 * (ki.k1 + 1) * (f1 + B)) :=
            mul_le_mul_of_nonneg_left h hidf
        _ = idfGet ki.idf token * (f2 * (ki.k1 + 1)) * (f1 + B) := by ring
    apply key
    have expand : f2 * (ki.k1 + 1) * (f1 + B) - f1 * (ki.k1 + 1) * (f2 + B)
        = (ki.k1 + 1) * B * (f2 - f1) := by ring
    nlinarith [mul_nonneg (mul_nonneg (by linarith : (0:ℚ) ≤ ki.k1 + 1) hB)
      (by linarith : (0:ℚ) ≤ f2 - f1)]

/-- C8: for the same query and two documents with the same document length
used in scoring and the same idf table, if every query token has equal term
frequency in both documents except one token with strictly higher frequency
in the second, then the BM25 score of the second document is ≥ the first
(for nonnegative `k1`, `b ∈ [0, 1]`, nonnegative `avgdl`, and nonnegative
idf of the query tokens); moreover the idf formula
`ln((N - df + 0.5)/(df + 0.5) + 1)` is nonnegative whenever `df ≤ N`. -/
theorem claim_C8_bm25_tf_monotone (ki : KeywordIndex)
    (query_tokens : List String) (t0 : String) (d1 d2 : List String)
    (i1 i2 : Nat)
    (hk1 : 0 ≤ ki.k1) (hb0 : 0 ≤ ki.b) (hb1 : ki.b ≤ 1) (havg : 0 ≤ ki.avgdl)
    (hidf : ∀ t ∈ query_tokens, 0 ≤ idfGet ki.idf t)
    (hlen : usedDocLen ki d1 i1 = usedDocLen ki d2 i2)
    (ht0 : t0 ∈ query_tokens)
    (hsame : ∀ t ∈ query_tokens, t ≠ t0 → termFreq d1 t = termFreq d2 t)
    (hmore : termFreq d1 t0 < termFreq d2 t0) :
    ki.score_doc d1 query_tokens i1 ≤ ki.score_doc d2 query_tokens i2
    ∧ ∀ (num_docs df : Nat), df ≤ num_docs → 0 ≤ idfReal num_docs df := by
  constructor
  · show (if usedDocLen ki d1 i1 = 0 then 0
        else (query_tokens.map (bm25Term ki d1 (usedDocLen ki d1 i1))).sum)
      ≤ (if usedDocLen ki d2 i2 = 0 then 0
        else (query_tokens.map (bm25Term ki d2 (usedDocLen ki d2 i2))).sum)
    rw [← hlen]
    by_cases hL : usedDocLen ki d1 i1 = 0
    · rw [if_pos hL, if_pos hL]
    · rw [if_neg hL, if_neg hL]
      apply List.sum_le_sum
      intro t ht
      by_cases heq : t = t0
      · subst heq
        exact bm25Term_mono ki d1 d2 _ t hk1 hb0 hb1 havg (hidf t ht)
          (le_of_lt hmore)
      · have hf : termFreq d1 t = termFreq d2 t := hsame t ht heq
        exact bm25Term_mono ki d1 d2 _ t hk1 hb0 hb1 havg (hidf t ht) hf.le
  · intro num_docs df hdf
    apply Real.log_nonneg
    have hnum : (0 : ℝ) ≤ (num_docs : ℝ) - (df : ℝ) + 1 / 2 := by
      have : (df : ℝ) ≤ (num_docs : ℝ) := by exact_mod_cast hdf
      linarith
    have hden : (0 : ℝ) < (df : ℝ) + 1 / 2 := by positivity
    have : (0 : ℝ) ≤ ((num_docs : ℝ) - (df : ℝ) + 1 / 2) / ((df : ℝ) + 1 / 2) :=
      div_nonneg hnum (le_of_lt hden)
    linarith

/-- Witness for C8: a two-document index over the query token `cat`,
where the second document contains `cat` once and the first not at all. -/
theorem claim_C8_bm25_tf_monotone_witness :
    (KeywordIndex.from_persisted [[ "dog" ], [ "cat" ]]
        ⟨[("cat", 1)], [1, 1], 1, 3 / 2, 3 / 4⟩).score_doc
        ["dog"] ["cat"] 0
      ≤ (KeywordIndex.from_persisted [[ "dog" ], [ "cat" ]]
        ⟨[("cat", 1)], [1, 1], 1, 3 / 2, 3 / 4⟩).score_doc
        ["cat"] ["cat"] 1 := by
  have h := claim_C8_bm25_tf_monotone
    (KeywordIndex.from_persisted [[ "dog" ], [ "cat" ]]
      ⟨[("cat", 1)], [1, 1], 1, 3 / 2, 3 / 4⟩)
    ["cat"] "cat" ["dog"] ["cat"] 0 1
    (by norm_num [KeywordIndex.from_persisted])
    (by norm_num [KeywordIndex.from_persisted])
    (by norm_num [KeywordIndex.from_persisted])
    (by norm_num [KeywordIndex.from_persisted])
    (by
      intro t htq
      simp only [List.mem_singleton] at htq
      subst htq
      decide)
    (by decide)
    (by simp)
    (by
      intro t htq hne
      simp only [List.mem_singleton] at htq
      exact absurd htq hne)
    (by decide)
  exact h.1

theorem checksum_foldl_eq_flatten (docs : List String) :
    docs.foldl (fun acc doc => acc ++ utf8Encode doc) []
      = (docs.map utf8Encode).flatten := by
  suffices h : ∀ (acc : List Nat),
      docs.foldl (fun acc doc => acc ++ utf8Encode doc) acc
        = acc ++ (docs.map utf8Encode).flatten by
    simpa using h []
  induction docs with
  | nil => intro acc; simp
  | cons d rest ih =>
      intro acc
      simp only [List.foldl_cons, List.map_cons, List.flatten_cons, ih,
        List.append_assoc]

theorem needsRebuildBool_iff (env : Env) (cfg : ModelConfig) (disk : Disk)
    (docs : List String) (idx : DenseIndex)
    (hidx : disk.index_file = some idx) :
    needsRebuildBool env cfg disk docs idx = true
      ↔ RebuildCondition env cfg disk docs := by
  unfold needsRebuildBool RebuildCondition
  rw [hidx]
  simp only [Bool.or_eq_true, bne_iff_ne]
  constructor
  · rintro ((h1 | h2) | h3)
    · cases hdim : env.embDim with
      | none => rw [hdim] at h1; simp at h1
      | some dim =>
          rw [hdim] at h1
          simp only [bne_iff_ne] at h1
          exact Or.inr (Or.inl ⟨idx, dim, rfl, rfl, h1⟩)
    · exact Or.inr (Or.inr (Or.inl h2))
    · exact Or.inr (Or.inr (Or.inr h3))
  · rintro (h0 | ⟨idx2, dim, hidx2, hdim, hne⟩ | h3 | h4)
    · exact absurd h0 (by simp)
    · left; left
      have heq : idx2 = idx := (Option.some.inj hidx2).symm
      subst heq
      rw [hdim]
      simpa [bne_iff_ne] using hne
    · exact Or.inl (Or.inr h3)
    · exact Or.inr h4

/-- C2: `load()` rebuilds from the loaded documents if and only if at least
one of the four staleness conditions holds (dense index unreadable, loaded
dense dimension differs from the model's reported dimension, stored version
differs from the configured version, stored checksum differs from the fresh
checksum of the loaded documents); when none holds, the persisted dense
index and lexical structures are reused as-is. -/
theorem claim_C2_load_staleness (env : Env) (cfg : ModelConfig)
    (st : RagState) (disk : Disk) (docs : List String)
    (tokenized_docs : List (List String)) (keyword_data : PersistedKeyword)
    (hd : disk.docs_file = some docs)
    (ht : disk.tokens_file = some tokenized_docs)
    (hk : disk.keyword_file = some keyword_data) :
    (RebuildCondition env cfg disk docs →
      load env cfg st disk = .ok (loadRebuildBranch env cfg disk docs))
    ∧ (¬ RebuildCondition env cfg disk docs →
      ∃ idx, disk.index_file = some idx
        ∧ load env cfg st disk
            = .ok (loadReuseBranch cfg st disk docs tokenized_docs keyword_data idx)) := by
  cases hidx : disk.index_file with
  | none =>
      constructor
      · intro _
        simp [load, hd, ht, hk, hidx]
      · intro hnc
        exact absurd (Or.inl hidx) hnc
  | some idx =>
      constructor
      · intro hc
        have hb : needsRebuildBool env cfg disk docs idx = true :=
          (needsRebuildBool_iff env cfg disk docs idx hidx).mpr hc
        simp [load, hd, ht, hk, hidx, hb]
      · intro hnc
        have hb : needsRebuildBool env cfg disk docs idx = false := by
          by_contra hcon
          exact hnc ((needsRebuildBool_iff env cfg disk docs idx hidx).mp
            (Bool.of_not_eq_false hcon))
        exact ⟨idx, rfl, by simp [load, hd, ht, hk, hidx, hb]⟩

/-- Witness for C2 at a concrete stale disk (wrong stored checksum) and a
concrete fresh disk: the stale one rebuilds, the fresh one reuses. -/
theorem claim_C2_load_staleness_witness :
    (RebuildCondition
        ⟨fun ts => ts.map (fun _ => [1]), none, fun _ _ => 0, fun _ _ _ => []⟩
        ⟨true, "1"⟩
        ⟨some ⟨1, [[1]]⟩, some ["x"], some [["x"]],
          some ⟨[], [1], 1, 3 / 2, 3 / 4⟩, some ["x"], some [[1]],
          some ("1", "stale")⟩ ["x"]
      → load
          ⟨fun ts => ts.map (fun _ => [1]), none, fun _ _ => 0, fun _ _ _ => []⟩
          ⟨true, "1"⟩ RagState.initial
          ⟨some ⟨1, [[1]]⟩, some ["x"], some [["x"]],
            some ⟨[], [1], 1, 3 / 2, 3 / 4⟩, some ["x"], some [[1]],
            some ("1", "stale")⟩
          = .ok (loadRebuildBranch
              ⟨fun ts => ts.map (fun _ => [1]), none, fun _ _ => 0, fun _ _ _ => []⟩
              ⟨true, "1"⟩
              ⟨some ⟨1, [[1]]⟩, some ["x"], some [["x"]],
                some ⟨[], [1], 1, 3 / 2, 3 / 4⟩, some ["x"], some [[1]],
                some ("1", "stale")⟩ ["x"]))
    ∧ RebuildCondition
        ⟨fun ts => ts.map (fun _ => [1]), none, fun _ _ => 0, fun _ _ _ => []⟩
        ⟨true, "1"⟩
        ⟨some ⟨1, [[1]]⟩, some ["x"], some [["x"]],
          some ⟨[], [1], 1, 3 / 2, 3 / 4⟩, some ["x"], some [[1]],
          some ("1", "stale")⟩ ["x"] := by
  constructor
  · exact (claim_C2_load_staleness _ _ RagState.initial _ ["x"] [["x"]]
      ⟨[], [1], 1, 3 / 2, 3 / 4⟩ rfl rfl rfl).1
  · right; right; right
    intro hc
    have hne : ("stale" : String) ≠ compute_checksum ["x"] := by decide
    exact hne (by simpa using hc)

theorem lookupG_cons_self {α β : Type} [BEq α] [LawfulBEq α]
    (a : α) (b : β) (l : List (α × β)) :
    List.lookup a ((a, b) :: l) = some b := by
  simp [List.lookup]

theorem lookupG_cons_ne {α β : Type} [BEq α] [LawfulBEq α]
    (k a : α) (b : β) (l : List (α × β)) (h : ¬ k = a) :
    List.lookup k ((a, b) :: l) = List.lookup k l := by
  simp [List.lookup, show (k == a) = false from beq_eq_false_iff_ne.mpr h]

theorem lookupG_eq_none_iff {α β : Type} [BEq α] [LawfulBEq α]
    (l : List (α × β)) (k : α) :
    List.lookup k l = none ↔ k ∉ l.map Prod.fst := by
  induction l with
  | nil => simp
  | cons p rest ih =>
      obtain ⟨a, b⟩ := p
      by_cases h : k = a
      · subst h
        simp [lookupG_cons_self]
      · rw [lookupG_cons_ne k a b rest h]
        simp [ih, h]

theorem lookupG_append_right {α β : Type} [BEq α] [LawfulBEq α]
    (d l : List (α × β)) (k : α) (h : k ∉ d.map Prod.fst) :
    List.lookup k (d ++ l) = List.lookup k l := by
  induction d with
  | nil => simp
  | cons p rest ih =>
      obtain ⟨a, b⟩ := p
      simp only [List.map_cons, List.mem_cons] at h
      push_neg at h
      rw [List.cons_append, lookupG_cons_ne k a b (rest ++ l) h.1]
      exact ih h.2

theorem erasePKey_of_not_mem {α β : Type} [BEq α] [LawfulBEq α]
    (l : List (α × β)) (key : α) (h : key ∉ l.map Prod.fst) :
    l.eraseP (fun p => p.1 == key) = l := by
  induction l with
  | nil => rfl
  | cons p rest ih =>
      obtain ⟨a, b⟩ := p
      simp only [List.map_cons, List.mem_cons] at h
      push_neg at h
      have hpa : ((a, b).1 == key) = false :=
        beq_eq_false_iff_ne.mpr (fun he => h.1 he.symm)
      simp only [List.eraseP_cons, hpa, cond_false]
      rw [ih h.2]

theorem erasePKey_not_mem_keys {α β : Type} [BEq α] [LawfulBEq α]
    (l : List (α × β)) (key : α) (hnd : (l.map Prod.fst).Nodup) :
    key ∉ (l.eraseP (fun p => p.1 == key)).map Prod.fst := by
  induction l with
  | nil => simp
  | cons p rest ih =>
      obtain ⟨a, b⟩ := p
      rw [List.map_cons] at hnd
      rcases List.nodup_cons.mp hnd with ⟨hnotin, hnd2⟩
      by_cases ha : a = key
      · subst ha
        simp only [List.eraseP_cons, beq_self_eq_true, cond_true]
        exact fun hc => hnotin (by simpa using hc)
      · have hpa : ((a, b).1 == key) = false := beq_eq_false_iff_ne.mpr ha
        simp only [List.eraseP_cons, hpa, cond_false, List.map_cons,
          List.mem_cons]
        rintro (he | hc)
        · exact ha he.symm
        · exact ih hnd2 hc

theorem search_vectors_hits_eq (env : Env) (index : DenseIndex)
    (cache : InMemoryEmbeddingCache) (query : String) (k : Nat) :
    (search_vectors env index cache query k).1
      = (index.search (usedVector env cache query) k).filterMap
          (fun p => if p.1 < 0 then none else some (p.1.toNat, p.2)) := by
  unfold search_vectors usedVector
  cases h : (cache.get query).1 with
  | some v => simp [h]
  | none => simp [h]

theorem cache_get_of_set_or_encode (env : Env)
    (cache : InMemoryEmbeddingCache) (query : String) (v : List ℚ)
    (hv : v = (env.encode [query]).headD [])
    (hmiss : (cache.get query).1 = none) :
    usedVector env (cache.set query v) query = v := by
  unfold InMemoryEmbeddingCache.set
  by_cases hkey : (pyStrip query) = ""
  · rw [if_pos hkey]
    unfold usedVector
    rw [hmiss, hv]
  · rw [if_neg hkey]
    have hnotin : (pyStrip query) ∉ cache.entries.map Prod.fst := by
      unfold InMemoryEmbeddingCache.get at hmiss
      rw [if_neg hkey] at hmiss
      cases hl : List.lookup (pyStrip query) cache.entries with
      | none => exact (lookupG_eq_none_iff cache.entries (pyStrip query)).mp hl
      | some w => rw [hl] at hmiss; simp at hmiss
    rw [erasePKey_of_not_mem cache.entries (pyStrip query) hnotin]
    by_cases hcap : cache.max_size < (cache.entries ++ [((pyStrip query), v)]).length
    · rw [if_pos hcap]
      unfold usedVector InMemoryEmbeddingCache.get
      rw [if_neg hkey]
      cases hent : cache.entries with
      | nil =>
          simp only [hent, List.nil_append, List.drop_succ_cons, List.drop_nil]
          simp [List.lookup, hv]
      | cons p rest =>
          have hrest : (pyStrip query) ∉ rest.map Prod.fst := by
            rw [hent] at hnotin
            intro hc
            exact hnotin (by simp [hc])
          simp only [hent, List.cons_append, List.drop_succ_cons,
            List.drop_zero]
          rw [lookupG_append_right rest [((pyStrip query), v)] (pyStrip query) hrest,
            lookupG_cons_self]
    · rw [if_neg hcap]
      unfold usedVector InMemoryEmbeddingCache.get
      rw [if_neg hkey]
      rw [lookupG_append_right cache.entries [((pyStrip query), v)] (pyStrip query) hnotin,
        lookupG_cons_self]

theorem usedVector_stable (env : Env) (index : DenseIndex)
    (cache : InMemoryEmbeddingCache) (query : String) (k : Nat)
    (hnd : (cache.entries.map Prod.fst).Nodup) :
    usedVector env (search_vectors env index cache query k).2 query
      = usedVector env cache query := by
  unfold search_vectors
  cases h : (cache.get query).1 with
  | some v =>
      simp only [h]
      have hkey : ¬ (pyStrip query) = "" := by
        unfold InMemoryEmbeddingCache.get at h
        by_cases hk : (pyStrip query) = ""
        · rw [if_pos hk] at h; simp at h
        · exact hk
      have hlook : List.lookup (pyStrip query) cache.entries = some v := by
        unfold InMemoryEmbeddingCache.get at h
        rw [if_neg hkey] at h
        cases hl : List.lookup (pyStrip query) cache.entries with
        | none => rw [hl] at h; simp at h
        | some w => rw [hl] at h; simpa using h
      have hpost : (cache.get query).2
          = ⟨cache.max_size,
              (cache.entries.eraseP (fun p => p.1 == (pyStrip query)))
                ++ [((pyStrip query), v)]⟩ := by
        unfold InMemoryEmbeddingCache.get
        rw [if_neg hkey, hlook]
      rw [hpost]
      have hget2 : ((⟨cache.max_size,
          (cache.entries.eraseP (fun p => p.1 == (pyStrip query)))
            ++ [((pyStrip query), v)]⟩ : InMemoryEmbeddingCache).get query).1
          = some v := by
        unfold InMemoryEmbeddingCache.get
        rw [if_neg hkey]
        simp only []
        rw [lookupG_append_right _ [((pyStrip query), v)] (pyStrip query)
          (erasePKey_not_mem_keys cache.entries (pyStrip query) hnd),
          lookupG_cons_self]
      unfold usedVector
      rw [hget2, h]
  | none =>
      simp only [h]
      have hsame : (cache.get query).2 = cache := by
        unfold InMemoryEmbeddingCache.get
        by_cases hk : (pyStrip query) = ""
        · rw [if_pos hk]
        · rw [if_neg hk]
          unfold InMemoryEmbeddingCache.get at h
          rw [if_neg hk] at h
          cases hl : List.lookup (pyStrip query) cache.entries with
          | none => rfl
          | some w => rw [hl] at h; simp at h
      rw [hsame]
      rw [cache_get_of_set_or_encode env cache query _ rfl h]
      unfold usedVector
      rw [h]

/-- `from_persisted` undoes `to_persisted` (the dict round-trips). -/
theorem from_to_persisted (ki : KeywordIndex) :
    KeywordIndex.from_persisted ki.tokenized_docs ki.to_persisted = ki := rfl

theorem load_after_build (env : Env) (cfg : ModelConfig) (st0 : RagState)
    (disk0 : Disk) (texts : List String) (st1 : RagState) (disk1 : Disk)
    (hb : build_from_texts env cfg st0 disk0 texts = .ok (st1, disk1)) :
    load env cfg st1 disk1 = .ok (st1, disk1) := by
  by_cases hne : texts = []
  · rw [hne] at hb
    simp [build_from_texts] at hb
  · unfold build_from_texts at hb
    rw [if_neg hne] at hb
    have hpair := Except.ok.inj hb
    have hst : st1 = _ := (congrArg Prod.fst hpair).symm
    have hdk : disk1 = _ := (congrArg Prod.snd hpair).symm
    subst hst
    subst hdk
    set emb := env.encode texts with hemb
    set ki := KeywordIndex.build env.idfFn texts with hki
    set dim := (emb.headD []).length with hdimv
    set chk := compute_checksum texts with hchk
    clear hb hpair
    cases hdim : env.embDim with
    | none =>
        cases hp : cfg.persist_embeddings with
        | true =>
            simp [load, save_index_and_docs, needsRebuildBool, hdim,
              loadReuseBranch, loadWhoosh, KeywordIndex.from_persisted,
              KeywordIndex.to_persisted, hp]
        | false =>
            simp [load, save_index_and_docs, needsRebuildBool, hdim,
              loadReuseBranch, loadWhoosh, KeywordIndex.from_persisted,
              KeywordIndex.to_persisted, hp]
    | some d0 =>
        by_cases hd : dim = d0
        · cases hp : cfg.persist_embeddings with
          | true =>
              simp [load, save_index_and_docs, needsRebuildBool, hdim, hd,
                loadReuseBranch, loadWhoosh, KeywordIndex.from_persisted,
                KeywordIndex.to_persisted, hp]
          | false =>
              simp [load, save_index_and_docs, needsRebuildBool, hdim, hd,
                loadReuseBranch, loadWhoosh, KeywordIndex.from_persisted,
                KeywordIndex.to_persisted, hp]
        · cases hp : cfg.persist_embeddings with
          | true =>
              simp [load, save_index_and_docs, needsRebuildBool, hdim, hd,
                loadRebuildBranch, rebuild_index_from_docs, loadWhoosh, hp]
              rw [hdimv, hemb, List.headD_eq_head?_getD]
          | false =>
              simp [load, save_index_and_docs, needsRebuildBool, hdim, hd,
                loadRebuildBranch, rebuild_index_from_docs, loadWhoosh, hp]
              rw [hdimv, hemb, List.headD_eq_head?_getD]

theorem ragSearch_results_stable (env : Env) (st : RagState)
    (cache : InMemoryEmbeddingCache) (query : String) (k : Nat) (w : ℚ)
    (hnd : (cache.entries.map Prod.fst).Nodup) :
    ∀ r1 c1, ragSearch env st cache query k w = .ok (r1, c1) →
      ∃ c2, ragSearch env st c1 query k w = .ok (r1, c2) := by
  intro r1 c1 h
  cases hI : st.index with
  | none => simp [ragSearch, hI] at h
  | some index =>
  cases hK : st.keyword_index with
  | none => simp [ragSearch, hI, hK] at h
  | some keyword_index =>
  cases hV : st.inverted_index with
  | none => simp [ragSearch, hI, hK, hV] at h
  | some inv_docs =>
  simp only [ragSearch, hI, hK, hV] at h
  by_cases hempty : st.docs = [] ∨ st.tokenized_docs = []
  · rw [if_pos hempty] at h; cases h
  · rw [if_neg hempty] at h
    have hr := Except.ok.inj h
    have hr1 : r1 = _ := (congrArg Prod.fst hr).symm
    have hc1 : c1 = (search_vectors env index cache query k).2 :=
      (congrArg Prod.snd hr).symm
    refine ⟨(search_vectors env index c1 query k).2, ?_⟩
    simp only [ragSearch, hI, hK, hV]
    rw [if_neg hempty]
    have hhits : (search_vectors env index c1 query k).1
        = (search_vectors env index cache query k).1 := by
      rw [search_vectors_hits_eq env index c1 query k,
        search_vectors_hits_eq env index cache query k, hc1,
        usedVector_stable env index cache query k hnd]
    rw [hhits, hr1]

/-- C4: building the index from a non-empty document list and searching
gives the same ranked (text, score) list as subsequently calling `load()`
on the persisted artifacts (with no corpus change) and searching with the
same query, `k` and fusion weight: the reload returns exactly the built
state, and the search results coincide (the two searches share the
instance's query-embedding cache). -/
theorem claim_C4_idempotent_reload (env : Env) (cfg : ModelConfig)
    (st0 : RagState) (disk0 : Disk) (texts : List String) (query : String)
    (k : Nat) (w : ℚ) (cache : InMemoryEmbeddingCache) (st1 : RagState)
    (disk1 : Disk)
    (hne : texts ≠ [])
    (hnd : (cache.entries.map Prod.fst).Nodup)
    (hb : build_from_texts env cfg st0 disk0 texts = .ok (st1, disk1)) :
    load env cfg st1 disk1 = .ok (st1, disk1)
    ∧ ∀ r1 c1, ragSearch env st1 cache query k w = .ok (r1, c1) →
        ∃ c2, ragSearch env st1 c1 query k w = .ok (r1, c2) := by
  exact ⟨load_after_build env cfg st0 disk0 texts st1 disk1 hb,
    ragSearch_results_stable env st1 cache query k w hnd⟩

/-- Witness for C4: a one-document corpus built with a constant embedding
model; the reload returns the built state and the two searches agree. -/
theorem claim_C4_idempotent_reload_witness :
    ∃ st1 disk1,
      build_from_texts
          (⟨fun ts => ts.map (fun _ => ([1] : List ℚ)), none, fun _ _ => 0,
            fun _ _ _ => []⟩ : Env)
          (⟨true, "1"⟩ : ModelConfig) RagState.initial
          (⟨none, none, none, none, none, none, none⟩ : Disk) ["x"]
        = .ok (st1, disk1)
      ∧ load (⟨fun ts => ts.map (fun _ => ([1] : List ℚ)), none, fun _ _ => 0,
            fun _ _ _ => []⟩ : Env) (⟨true, "1"⟩ : ModelConfig) st1 disk1
          = .ok (st1, disk1)
      ∧ ∀ r1 c1,
          ragSearch (⟨fun ts => ts.map (fun _ => ([1] : List ℚ)), none,
              fun _ _ => 0, fun _ _ _ => []⟩ : Env) st1
            (⟨512, []⟩ : InMemoryEmbeddingCache) "x" 1 (1 / 2) = .ok (r1, c1) →
          ∃ c2, ragSearch (⟨fun ts => ts.map (fun _ => ([1] : List ℚ)), none,
              fun _ _ => 0, fun _ _ _ => []⟩ : Env) st1 c1 "x" 1 (1 / 2)
            = .ok (r1, c2) := by
  refine ⟨_, _, rfl, ?_⟩
  have h := claim_C4_idempotent_reload
    (⟨fun ts => ts.map (fun _ => ([1] : List ℚ)), none, fun _ _ => 0,
      fun _ _ _ => []⟩ : Env) (⟨true, "1"⟩ : ModelConfig) RagState.initial
    (⟨none, none, none, none, none, none, none⟩ : Disk) ["x"] "x" 1 (1 / 2)
    (⟨512, []⟩ : InMemoryEmbeddingCache) _ _ (by simp) (by simp) rfl
  exact h

theorem enumFrom_fst_lt {α : Type} (l : List α) :
    ∀ (n : Nat) (p : Nat × α), p ∈ List.enumFrom n l → p.1 < n + l.length := by
  induction l with
  | nil => intro n p h; simp at h
  | cons a rest ih =>
      intro n p h
      rcases List.mem_cons.mp h with h1 | h2
      · subst h1; simp
      · have := ih (n + 1) p h2
        simp only [List.length_cons]
        omega

theorem dense_search_bounds (idx : DenseIndex) (q : List ℚ) (k : Nat) :
    ∀ p ∈ idx.search q k, 0 ≤ p.1 → p.1.toNat < idx.vecs.length := by
  intro p hp hpos
  unfold DenseIndex.search at hp
  rcases List.mem_append.mp hp with hmem | hpad
  · have hmem2 := List.mem_of_mem_take hmem
    have hmem3 := (perm_sortDesc _).mem_iff.mp hmem2
    rcases List.mem_map.mp hmem3 with ⟨q0, hq0, hq0e⟩
    have hlt : q0.1 < idx.vecs.length := by
      have := enumFrom_fst_lt idx.vecs 0 q0 (by simpa [List.enum] using hq0)
      simpa using this
    have : p.1 = (q0.1 : Int) := by rw [← hq0e]
    rw [this]
    simpa using hlt
  · have : p = ((-1 : Int), (0 : ℚ)) := List.eq_of_mem_replicate hpad
    rw [this] at hpos
    simp at hpos

theorem filterMap_guard {α β : Type} (P : α → Prop) [DecidablePred P]
    (f : α → β) (l : List α) :
    l.filterMap (fun a => if P a then some (f a) else none)
      = (l.filter (fun a => decide (P a))).map f := by
  induction l with
  | nil => rfl
  | cons a rest ih =>
      by_cases h : P a <;> simp [h, ih]

/-- C9: dense vector search returns only document ordinals inside
`[0, ntotal)` — negative padding ids from the under-filled nearest-neighbor
result buffer are discarded — and the final mapping step of `Search` keeps
exactly the fused entries whose ordinal lies inside the current document
list, mapping each to its text, so an out-of-bounds ordinal is dropped
rather than crashing the lookup. -/
theorem claim_C9_ordinal_bounds (env : Env) (index : DenseIndex)
    (cache : InMemoryEmbeddingCache) (query : String) (k : Nat)
    (docs : List String) (kk : Nat) (fused : List (Nat × ℚ)) :
    (∀ p ∈ (search_vectors env index cache query k).1,
      p.1 < index.vecs.length)
    ∧ mapFusedToDocs docs kk fused
        = ((fused.take (min kk fused.length)).filter
            (fun p => p.1 < docs.length)).map
              (fun p => (docs.getD p.1 "", p.2)) := by
  constructor
  · intro p hp
    rw [search_vectors_hits_eq] at hp
    rcases List.mem_filterMap.mp hp with ⟨a, ha, hae⟩
    by_cases hneg : a.1 < 0
    · rw [if_pos hneg] at hae; cases hae
    · rw [if_neg hneg] at hae
      have hpe : p = (a.1.toNat, a.2) := (Option.some.inj hae).symm
      have hb := dense_search_bounds index (usedVector env cache query) k a ha
        (le_of_not_lt hneg)
      rw [hpe]
      exact hb
  · exact filterMap_guard (fun p => p.1 < docs.length)
      (fun p => (docs.getD p.1 "", p.2)) (fused.take (min kk fused.length))

/-- Witness for C9: a two-vector index queried with `k = 5` (an under-filled
buffer) yields only ordinals `< 2`, and a fused list containing the
out-of-bounds ordinal 7 has it dropped by the mapping step. -/
theorem claim_C9_ordinal_bounds_witness :
    (∀ p ∈ (search_vectors
        (⟨fun ts => ts.map (fun _ => ([1] : List ℚ)), none, fun _ _ => 0,
          fun _ _ _ => []⟩ : Env)
        (⟨1, [[1], [2]]⟩ : DenseIndex) (⟨512, []⟩ : InMemoryEmbeddingCache)
        "x" 5).1, p.1 < 2)
    ∧ mapFusedToDocs ["a", "b"] 5 [(0, 1), (7, 1)]
        = (([((0 : Nat), (1 : ℚ)), (7, 1)].take
            (min 5 [((0 : Nat), (1 : ℚ)), (7, 1)].length)).filter
              (fun p => p.1 < 2)).map
                (fun p => (["a", "b"].getD p.1 "", p.2)) := by
  have h := claim_C9_ordinal_bounds
    (⟨fun ts => ts.map (fun _ => ([1] : List ℚ)), none, fun _ _ => 0,
      fun _ _ _ => []⟩ : Env)
    (⟨1, [[1], [2]]⟩ : DenseIndex) (⟨512, []⟩ : InMemoryEmbeddingCache)
    "x" 5 ["a", "b"] 5 [(0, 1), (7, 1)]
  exact ⟨h.1, h.2⟩

/-- C10: the corpus checksum depends only on the concatenated utf-8 bytes of
the documents, so two document lists that concatenate to the same byte
sequence have the same checksum; consequently `load()`'s checksum-based
staleness detection cannot distinguish a re-chunked corpus from the original
and does not trigger a rebuild for such a change (when the other three
staleness conditions also do not hold). -/
theorem claim_C10_checksum_rechunk (d1 d2 : List String)
    (h : (d1.map utf8Encode).flatten = (d2.map utf8Encode).flatten) :
    compute_checksum d1 = compute_checksum d2
    ∧ ∀ (env : Env) (cfg : ModelConfig) (st : RagState) (disk : Disk)
        (idx : DenseIndex) (tokens : List (List String))
        (kw : PersistedKeyword),
        disk.docs_file = some d2 → disk.tokens_file = some tokens →
        disk.keyword_file = some kw → disk.index_file = some idx →
        (env.embDim = none ∨ env.embDim = some idx.d) →
        disk.meta_file = some (cfg.index_version, compute_checksum d1) →
        load env cfg st disk
          = .ok (loadReuseBranch cfg st disk d2 tokens kw idx) := by
  have hchk : compute_checksum d1 = compute_checksum d2 := by
    unfold compute_checksum
    rw [checksum_foldl_eq_flatten, checksum_foldl_eq_flatten, h]
  refine ⟨hchk, ?_⟩
  intro env cfg st disk idx tokens kw hd ht hk hidx hdim hmeta
  have hb : needsRebuildBool env cfg disk d2 idx = false := by
    unfold needsRebuildBool
    rw [hmeta]
    rcases hdim with h0 | h1
    · rw [h0]
      simp [hchk]
    · rw [h1]
      simp [hchk]
  simp [load, hd, ht, hk, hidx, hb]

/-- Witness for C10 at the claim's example: `["ab"]` and `["a", "b"]`
concatenate to the same bytes and get the same checksum. -/
theorem claim_C10_checksum_rechunk_witness :
    ((["ab"].map utf8Encode).flatten = (["a", "b"].map utf8Encode).flatten)
    ∧ compute_checksum ["ab"] = compute_checksum ["a", "b"] := by
  have hcat : ((["ab"].map utf8Encode).flatten
      = (["a", "b"].map utf8Encode).flatten) := by decide
  exact ⟨hcat, (claim_C10_checksum_rechunk ["ab"] ["a", "b"] hcat).1⟩

/-- C3 (code bug): an exception raised by the rename of the temp directory
into the serving location (`os.replace(temp_dir, target_dir)` inside
`_atomic_swap_dir`), after the serving directory was already moved to its
`.bak` backup, leaves the serving directory missing: the `backup_dir` local
of `_build` is assigned only after `_atomic_swap_dir` returns, so the
restore handler does not fire and the previous serving contents are
stranded at the backup path, contradicting the claim that they are left
unchanged or restored. -/
theorem claim_C3_midswap_not_restored :
    runBuild (some .swapCommit) ⟨some .old, none, none⟩
      = (⟨none, some .old, none⟩, true)
    ∧ (runBuild (some .swapCommit) ⟨some .old, none, none⟩).1.target
        ≠ some DirContent.old := by
  constructor
  · rfl
  · intro h
    simp [runBuild, runStepsFrom, buildSteps, applyStep] at h

/-- At every other failure point the previous serving directory survives:
a failure before the swap touches it leaves it in place, and a failure
after the swap committed is rolled back from the backup. -/
theorem runBuild_target_preserved_elsewhere :
    ∀ s : BuildStep, s ≠ BuildStep.swapCommit →
      (runBuild (some s) ⟨some .old, none, none⟩).1.target
        = some DirContent.old := by
  decide

/-- C6 (counterexample): with a constructed model whose embedding call
fails at build time, `build_from_texts` propagates the error after the
first failure — no fallback model is consulted, since the fallback exists
only inside `_load_model_with_fallback` at construction time; likewise a
query-time embedding failure propagates out of `search`. -/
theorem claim_C6_encode_failure_not_retried :
    buildF
        (⟨fun ts => ts.map (fun _ => ([1] : List ℚ)), none, fun _ _ => 0,
          fun _ _ _ => []⟩ : Env) (⟨true, "1"⟩ : ModelConfig)
        (fun op => op == IndexOp.encodeDocs) RagState.initial
        (⟨none, none, none, none, none, none, none⟩ : Disk) ["x"]
      = (RagState.initial,
          (⟨none, none, none, none, none, none, none⟩ : Disk),
          some RagErr.ioError)
    ∧ (ragSearchF
        (⟨fun ts => ts.map (fun _ => ([1] : List ℚ)), none, fun _ _ => 0,
          fun _ _ _ => []⟩ : Env)
        (fun op => op == IndexOp.encodeQuery)
        (⟨some ⟨1, [[1]]⟩, ["x"], [["x"]],
          some ⟨[["x"]], [], [1], 1, 3 / 2, 3 / 4⟩, some ["x"], none⟩ : RagState)
        (⟨512, []⟩ : InMemoryEmbeddingCache) "x" 1 (1 / 2)).2
      = some RagErr.ioError := by
  exact ⟨rfl, rfl⟩

/-- C6 (amended): the retry-via-fallback happens exactly once and only at
model construction time — `_load_model_with_fallback` returns the primary
model when it constructs, falls back once when it fails and the fallback
name differs, and re-raises when the fallback name equals the primary name;
a failure of the embedding call itself at index-build time or at query time
(on a cache miss) propagates to the caller with no retry. -/
theorem claim_C6_fallback_only_at_construction :
    (∀ (construct : String → Except RagErr Env) (primary fallback : String)
        (m : Env), construct primary = .ok m →
        load_model_with_fallback primary fallback construct = .ok m)
    ∧ (∀ (construct : String → Except RagErr Env) (primary fallback : String)
        (e : RagErr), construct primary = .error e → fallback ≠ primary →
        load_model_with_fallback primary fallback construct = construct fallback)
    ∧ (∀ (construct : String → Except RagErr Env) (primary : String)
        (e : RagErr), construct primary = .error e →
        load_model_with_fallback primary primary construct = .error e)
    ∧ (∀ (env : Env) (cfg : ModelConfig) (faults : IndexOp → Bool)
        (st : RagState) (disk : Disk) (texts : List String),
        faults IndexOp.encodeDocs = true → texts ≠ [] →
        buildF env cfg faults st disk texts = (st, disk, some RagErr.ioError))
    ∧ (∀ (env : Env) (faults : IndexOp → Bool) (st : RagState)
        (cache : InMemoryEmbeddingCache) (query : String) (k : Nat) (w : ℚ)
        (index : DenseIndex) (keyword_index : KeywordIndex)
        (inv_docs : List String),
        st.index = some index → st.keyword_index = some keyword_index →
        st.inverted_index = some inv_docs →
        ¬(st.docs = [] ∨ st.tokenized_docs = []) →
        faults IndexOp.encodeQuery = true →
        (cache.get query).1 = none →
        (ragSearchF env faults st cache query k w).2
          = some RagErr.ioError) := by
  refine ⟨?_, ?_, ?_, ?_, ?_⟩
  · intro construct primary fallback m h
    simp [load_model_with_fallback, h]
  · intro construct primary fallback e h hne
    simp [load_model_with_fallback, h, hne]
  · intro construct primary e h
    simp [load_model_with_fallback, h]
  · intro env cfg faults st disk texts hf hne
    unfold buildF
    rw [if_neg hne, if_pos hf]
  · intro env faults st cache query k w index keyword_index inv_docs
      hI hK hV hready hf hmiss
    have hsv : (search_vectorsF env faults index cache query k).2
        = some RagErr.ioError := by
      unfold search_vectorsF
      simp only [hmiss]
      rw [if_pos hf]
    simp [ragSearchF, hI, hK, hV, hready, hsv]

/-- A failing `loadWhooshF` call means the whoosh directory was missing and
its rebuild raised, and the already-assigned `stMid` is returned
unchanged. -/
theorem loadWhooshF_triple (faults : IndexOp → Bool) (stMid : RagState)
    (dk : Disk) (docs : List String) (st2 : RagState) (disk2 : Disk)
    (err2 : Option RagErr)
    (heq : loadWhooshF faults stMid dk docs = (st2, disk2, err2))
    (h : err2.isSome = true) :
    faults IndexOp.whooshBuildOnLoad = true ∧ st2 = stMid := by
  unfold loadWhooshF at heq
  split at heq
  · have he := congrArg (fun p => p.2.2) heq
    simp only at he
    rw [← he] at h
    simp at h
  · split at heq
    next hfv =>
        exact ⟨hfv, (congrArg (fun p => p.1) heq).symm⟩
    next hfv =>
        have he := congrArg (fun p => p.2.2) heq
        simp only at he
        rw [← he] at h
        simp at h

/-- A failing rebuild branch of `load` either left the state untouched
(model call or save failure) or failed in the whoosh tail with the main
fields already holding the loaded values. -/
theorem loadRebuildF_triple (env : Env) (cfg : ModelConfig)
    (faults : IndexOp → Bool) (st : RagState) (disk : Disk)
    (docs : List String) (st2 : RagState) (disk2 : Disk)
    (err2 : Option RagErr)
    (heq : loadRebuildF env cfg faults st disk docs = (st2, disk2, err2))
    (h : err2.isSome = true) :
    st2 = st
    ∨ (faults IndexOp.whooshBuildOnLoad = true
        ∧ st2.inverted_index = st.inverted_index ∧ st2.docs = docs) := by
  simp only [loadRebuildF] at heq
  split at heq
  · exact Or.inl (congrArg (fun p => p.1) heq).symm
  · split at heq
    next e hsr => exact Or.inl (congrArg (fun p => p.1) heq).symm
    next hsr =>
        have hw := loadWhooshF_triple faults _ _ docs st2 disk2 err2 heq h
        refine Or.inr ⟨hw.1, ?_, ?_⟩
        · rw [hw.2]
        · rw [hw.2]

/-- C7 (amended): every error during `build_from_texts` leaves the
in-memory state exactly as before the call; every error during `load`
leaves it exactly as before the call, except when the whoosh rebuild of the
missing fuzzy-index directory raises after the artifacts were read: then
the exception still propagates, but the dense index, documents, tokenized
documents and keyword index already hold the newly loaded values while the
fuzzy index keeps its previous value. -/
theorem claim_C7_amended_state_on_error :
    (∀ (env : Env) (cfg : ModelConfig) (faults : IndexOp → Bool)
        (st : RagState) (disk : Disk) (texts : List String),
        (buildF env cfg faults st disk texts).2.2.isSome = true →
        (buildF env cfg faults st disk texts).1 = st)
    ∧ (∀ (env : Env) (cfg : ModelConfig) (faults : IndexOp → Bool)
        (st : RagState) (disk : Disk),
        (loadF env cfg faults st disk).2.2.isSome = true →
        (loadF env cfg faults st disk).1 = st
        ∨ (faults IndexOp.whooshBuildOnLoad = true
            ∧ (loadF env cfg faults st disk).1.inverted_index
                = st.inverted_index
            ∧ ∃ docs, disk.docs_file = some docs
                ∧ (loadF env cfg faults st disk).1.docs = docs)) := by
  constructor
  · intro env cfg faults st disk texts h
    rcases heq : buildF env cfg faults st disk texts with ⟨st2, disk2, err2⟩
    rw [heq] at h
    simp only [buildF] at heq
    split at heq
    · exact (congrArg (fun p => p.1) heq).symm
    · split at heq
      · exact (congrArg (fun p => p.1) heq).symm
      · split at heq
        next e hsr => exact (congrArg (fun p => p.1) heq).symm
        next hsr =>
            have he := congrArg (fun p => p.2.2) heq
            simp only at he
            rw [← he] at h
            simp at h
  · intro env cfg faults st disk h
    rcases heq : loadF env cfg faults st disk with ⟨st2, disk2, err2⟩
    rw [heq] at h
    simp only [loadF] at heq
    split at heq
    case h_2 => exact Or.inl (congrArg (fun p => p.1) heq).symm
    case h_1 _ _ _ docs tokenized_docs keyword_data hdocs htok hkw =>
      split at heq
      · exact Or.inl (congrArg (fun p => p.1) heq).symm
      next hloads =>
        split at heq
        next hidx =>
          rcases loadRebuildF_triple env cfg faults st disk docs st2 disk2
              err2 heq h with h1 | ⟨hf, hinv, hds⟩
          · exact Or.inl h1
          · exact Or.inr ⟨hf, hinv, docs, hdocs, hds⟩
        next idx hidx =>
          split at heq
          next hnr =>
            rcases loadRebuildF_triple env cfg faults st disk docs st2 disk2
                err2 heq h with h1 | ⟨hf, hinv, hds⟩
            · exact Or.inl h1
            · exact Or.inr ⟨hf, hinv, docs, hdocs, hds⟩
          next hnr =>
            have hw := loadWhooshF_triple faults _ _ docs st2 disk2 err2 heq h
            refine Or.inr ⟨hw.1, ?_, docs, hdocs, ?_⟩
            · rw [hw.2]
            · rw [hw.2]

/-- C7 (counterexample): `load()` on a readable, fresh set of artifacts for
a new corpus whose whoosh directory is missing, with the whoosh rebuild
raising, propagates the exception while the dense index, documents,
tokenized documents and keyword index already hold the newly loaded values
and the fuzzy index still holds the previous corpus — an observable
partially updated state, contradicting the claim that the state is exactly
what it was before the call. -/
theorem claim_C7_partial_state_on_load_failure :
    (loadF
        (⟨fun ts => ts.map (fun _ => ([1] : List ℚ)), none, fun _ _ => 0,
          fun _ _ _ => []⟩ : Env) (⟨true, "1"⟩ : ModelConfig)
        (fun op => op == IndexOp.whooshBuildOnLoad)
        (⟨some ⟨1, [[5]]⟩, ["old"], [["old"]],
          some ⟨[["old"]], [], [1], 1, 3 / 2, 3 / 4⟩, some ["old"],
          none⟩ : RagState)
        (⟨some ⟨1, [[1]]⟩, some ["new"], some [["new"]],
          some ⟨[], [1], 1, 3 / 2, 3 / 4⟩, none, none,
          some ("1", compute_checksum ["new"])⟩ : Disk)).2.2
      = some RagErr.ioError
    ∧ (loadF
        (⟨fun ts => ts.map (fun _ => ([1] : List ℚ)), none, fun _ _ => 0,
          fun _ _ _ => []⟩ : Env) (⟨true, "1"⟩ : ModelConfig)
        (fun op => op == IndexOp.whooshBuildOnLoad)
        (⟨some ⟨1, [[5]]⟩, ["old"], [["old"]],
          some ⟨[["old"]], [], [1], 1, 3 / 2, 3 / 4⟩, some ["old"],
          none⟩ : RagState)
        (⟨some ⟨1, [[1]]⟩, some ["new"], some [["new"]],
          some ⟨[], [1], 1, 3 / 2, 3 / 4⟩, none, none,
          some ("1", compute_checksum ["new"])⟩ : Disk)).1
      ≠ (⟨some ⟨1, [[5]]⟩, ["old"], [["old"]],
          some ⟨[["old"]], [], [1], 1, 3 / 2, 3 / 4⟩, some ["old"],
          none⟩ : RagState)
    ∧ (loadF
        (⟨fun ts => ts.map (fun _ => ([1] : List ℚ)), none, fun _ _ => 0,
          fun _ _ _ => []⟩ : Env) (⟨true, "1"⟩ : ModelConfig)
        (fun op => op == IndexOp.whooshBuildOnLoad)
        (⟨some ⟨1, [[5]]⟩, ["old"], [["old"]],
          some ⟨[["old"]], [], [1], 1, 3 / 2, 3 / 4⟩, some ["old"],
          none⟩ : RagState)
        (⟨some ⟨1, [[1]]⟩, some ["new"], some [["new"]],
          some ⟨[], [1], 1, 3 / 2, 3 / 4⟩, none, none,
          some ("1", compute_checksum ["new"])⟩ : Disk)).1.docs = ["new"]
    ∧ (loadF
        (⟨fun ts => ts.map (fun _ => ([1] : List ℚ)), none, fun _ _ => 0,
          fun _ _ _ => []⟩ : Env) (⟨true, "1"⟩ : ModelConfig)
        (fun op => op == IndexOp.whooshBuildOnLoad)
        (⟨some ⟨1, [[5]]⟩, ["old"], [["old"]],
          some ⟨[["old"]], [], [1], 1, 3 / 2, 3 / 4⟩, some ["old"],
          none⟩ : RagState)
        (⟨some ⟨1, [[1]]⟩, some ["new"], some [["new"]],
          some ⟨[], [1], 1, 3 / 2, 3 / 4⟩, none, none,
          some ("1", compute_checksum ["new"])⟩ : Disk)).1.inverted_index
      = some ["old"] := by
  refine ⟨by decide, by decide, by decide, by decide⟩

end Tesr

